import Mathlib

/-!
# RetroNova demo (Samples/retronova/retronova.cpp)

A shallow embedding of the frame pipeline of the RetroNova sample: the sine
lookup table, the starfield, the sine-wave ribbon, the wireframe cube and the
frame driver.

Conventions of the embedding.

* C `int` values are `Int`; C `Uint32` values are `Nat` with the wrap-around
  written out as `% 2 ^ 32`; `(int)` of an unsigned value is `toInt32`.
  C `%` and `/` on `int` truncate towards zero: `Int.tmod`, `Int.tdiv`.
* C `float` values are elements of a linearly ordered field `α` with a floor
  function. Taking `α := ℚ` makes every definition executable; taking
  `α := ℝ` gives the trigonometric statements.
* Rounding to single precision is `fl32`, round-to-nearest-even onto the
  binary32 values (overflow to infinity is not modelled). The three float
  operations of each expression of `DrawStars` are rounded, one by one: the
  size and the position of a star depend on that rounding. The other float
  operations are kept exact; the statements about them are on counts, order,
  signs and bounds.
* `sin`, `cosf`, `sinf` and `rand` come from the C library, not from the sample;
  they are parameters of the definitions that use them. `M_PI` is the constant
  the source defines.
* A read of a C array at a computed index is bounds-checked: the embedded
  function returns `none` where the C read would be out of bounds.
* The SDL renderer is a record of its current draw colour and of the drawing
  commands it received, oldest first.
-/

namespace RetroNova

/-! ## Constants -/

/-- Logical width, `#define WINDOW_WIDTH 640`. -/
def WINDOW_WIDTH : Int := 640

/-- Logical height, `#define WINDOW_HEIGHT 480`. -/
def WINDOW_HEIGHT : Int := 480

/-- Size of the star pool, `#define NUM_STARS 200`. -/
def NUM_STARS : Nat := 200

/-- Number of cube vertices, `#define NUM_VERTICES 8`. -/
def NUM_VERTICES : Nat := 8

/-- Number of entries of the sine table, `#define SINE_TABLE_SIZE 360`. -/
def SINE_TABLE_SIZE : Nat := 360

/-- Smallest value of a 32-bit signed `int`. -/
def INT_MIN : Int := -2147483648

/-- Largest value of a 32-bit signed `int`. -/
def INT_MAX : Int := 2147483647

/-! ## Machine arithmetic -/

/-- Conversion of an integer to a 32-bit signed `int` (two's complement wrap). -/
def toInt32 (n : Int) : Int := (n + 2 ^ 31) % 2 ^ 32 - 2 ^ 31

/-- Conversion of an integer to a `Uint32`. -/
def toUint32 (n : Int) : Nat := (n % 2 ^ 32).toNat

/-- Conversion of an integer to a `Uint8`. -/
def toUint8 (n : Int) : Nat := (n % 256).toNat

/-- The C cast `(int)f` of a float: truncation towards zero. -/
def truncToInt {α : Type} [LinearOrderedField α] [FloorRing α] (f : α) : Int :=
  if 0 ≤ f then Int.floor f else Int.ceil f

/-- Rounding to the nearest integer, a tie going to the even one. -/
def roundHalfEven {α : Type} [LinearOrderedField α] [FloorRing α] (q : α) : Int :=
  let f := Int.floor q
  let r := q - (f : α)
  if r < 1 / 2 then f else if 1 / 2 < r then f + 1 else if f % 2 = 0 then f else f + 1

/-- Exponent of the binary32 binade of `x`: `⌊log₂ |x|⌋`, and `-126` in the
subnormal range. -/
def binade {α : Type} [LinearOrderedField α] [FloorRing α] (x : α) : Int :=
  max (Int.log 2 |x|) (-126)

/-- Rounding of a value to single precision, as every `float` operation of the
source rounds its result: the nearest multiple of `2 ^ (binade x - 23)`, a tie
going to the even multiple. Overflow to infinity is not modelled. -/
def fl32 {α : Type} [LinearOrderedField α] [FloorRing α] (x : α) : α :=
  if x = 0 then 0
  else (roundHalfEven (x / (2 : α) ^ (binade x - 23)) : α) * (2 : α) ^ (binade x - 23)

/-- The values `lo, lo + 1, .., hi` a C loop `for (v = lo; v <= hi; v++)` runs
through, in order. -/
def intRange (lo hi : Int) : List Int :=
  (List.range (hi + 1 - lo).toNat).map fun (k : Nat) => lo + (k : Int)

/-- A read `a[i]` of a C array with an `int` index: `none` outside the array. -/
def readAt {β : Type} (a : List β) (i : Int) : Option β :=
  if 0 ≤ i then a[i.toNat]? else none

/-! ## Periodic sampler -/

/-- The index `GetSine` reads: `angle %= 360; if (angle < 0) angle += 360`. -/
def sineIndex (angle : Int) : Int :=
  let angle := Int.tmod angle SINE_TABLE_SIZE
  if angle < 0 then angle + SINE_TABLE_SIZE else angle

/-- Function `GetSine`: the table entry at the normalised index; `none` where the read
`sineTable[angle]` would fall outside the table. -/
def GetSine {α : Type} (sineTable : List α) (angle : Int) : Option α :=
  readAt sineTable (sineIndex angle)

/-! ## Random source -/

/-- The C library generator as the stream of the values its next calls return. -/
abbrev Rand := Nat → Int

/-- One call of `rand()`: the value returned and the generator afterwards. -/
def rand (g : Rand) : Int × Rand := (g 0, fun n => g (n + 1))

/-! ## Output surface -/

/-- An SDL colour `(r, g, b, a)`, each channel a `Uint8`. -/
structure Color where
  r : Nat
  g : Nat
  b : Nat
  a : Nat
  deriving DecidableEq, Repr

/-- A drawing command as the output surface receives it, with the colour it is
drawn in. -/
inductive DrawCmd where
  | clear (c : Color)
  | fillRect (x y w h : Int) (c : Color)
  | line (x0 y0 x1 y1 : Int) (c : Color)
  | point (x y : Int) (c : Color)
  | present
  deriving DecidableEq, Repr

/-- An `SDL_Renderer`: the current draw colour and the commands received so
far, oldest first. -/
structure Renderer where
  drawColor : Color
  cmds : List DrawCmd
  deriving DecidableEq, Repr

/-- Modelled from the spec: `SDL_SetRenderDrawColor` of the SDL library sets the
colour used by the drawing commands that follow. -/
def SDL_SetRenderDrawColor (rend : Renderer) (r g b a : Nat) : Renderer :=
  { rend with drawColor := ⟨r, g, b, a⟩ }

/-- Modelled from the spec: `SDL_RenderClear` of the SDL library, the surface's
`clear(color)` in the current draw colour. -/
def SDL_RenderClear (rend : Renderer) : Renderer :=
  { rend with cmds := rend.cmds ++ [DrawCmd.clear rend.drawColor] }

/-- Modelled from the spec: `SDL_RenderFillRect` of the SDL library, the
surface's `draw_filled_rect(x,y,w,h,color)` in the current draw colour. -/
def SDL_RenderFillRect (rend : Renderer) (x y w h : Int) : Renderer :=
  { rend with cmds := rend.cmds ++ [DrawCmd.fillRect x y w h rend.drawColor] }

/-- Modelled from the spec: `SDL_RenderDrawLine` of the SDL library, the
surface's `draw_line(x0,y0,x1,y1,color)` in the current draw colour. -/
def SDL_RenderDrawLine (rend : Renderer) (x0 y0 x1 y1 : Int) : Renderer :=
  { rend with cmds := rend.cmds ++ [DrawCmd.line x0 y0 x1 y1 rend.drawColor] }

/-- Modelled from the spec: `SDL_RenderDrawPoint` of the SDL library, the
surface's `draw_point(x,y,color)` in the current draw colour. -/
def SDL_RenderDrawPoint (rend : Renderer) (x y : Int) : Renderer :=
  { rend with cmds := rend.cmds ++ [DrawCmd.point x y rend.drawColor] }

/-- Modelled from the spec: `SDL_RenderPresent` of the SDL library, the
surface's `present()`. -/
def SDL_RenderPresent (rend : Renderer) : Renderer :=
  { rend with cmds := rend.cmds ++ [DrawCmd.present] }

/-! ## Starfield -/

/-- The `Star` struct: position `x, y, z` and colour `r, g, b`. -/
structure Star (α : Type) where
  x : α
  y : α
  z : α
  r : Nat
  g : Nat
  b : Nat
  deriving DecidableEq, Repr

section Float

variable {α : Type} [LinearOrderedField α] [FloorRing α]

/-- Body of the loop of `InitStars`: six calls of `rand()` fill one star. -/
def initStar (g : Rand) : Star α × Rand :=
  let x := rand g
  let y := rand x.2
  let z := rand y.2
  let r := rand z.2
  let gr := rand r.2
  let b := rand gr.2
  ({ x := ((Int.tmod x.1 WINDOW_WIDTH - Int.tdiv WINDOW_WIDTH 2 : Int) : α)
     y := ((Int.tmod y.1 WINDOW_HEIGHT - Int.tdiv WINDOW_HEIGHT 2 : Int) : α)
     z := ((Int.tmod z.1 200 + 1 : Int) : α)
     r := toUint8 (Int.tmod r.1 256)
     g := toUint8 (Int.tmod gr.1 256)
     b := toUint8 (Int.tmod b.1 256) }, b.2)

/-- The loop of `InitStars` run for `n` stars, in index order. -/
def initStarsLoop : Nat → Rand → List (Star α) × Rand
  | 0, g => ([], g)
  | n + 1, g =>
    let s := initStar g
    let rest := initStarsLoop n s.2
    (s.1 :: rest.1, rest.2)

/-- Function `InitStars`: the pool `stars[0 .. NUM_STARS-1]` and the generator afterwards. -/
def InitStars (g : Rand) : List (Star α) × Rand :=
  initStarsLoop NUM_STARS g

/-- Body of the loop of `UpdateStars`: move one star towards the camera and
respawn it at depth 200 when its depth is no longer positive. -/
def updateStar (s : Star α) (dt : α) (g : Rand) : Star α × Rand :=
  let z := s.z - 2 * dt
  if z ≤ 0 then
    let x := rand g
    let y := rand x.2
    ({ s with
       x := ((Int.tmod x.1 WINDOW_WIDTH - Int.tdiv WINDOW_WIDTH 2 : Int) : α)
       y := ((Int.tmod y.1 WINDOW_HEIGHT - Int.tdiv WINDOW_HEIGHT 2 : Int) : α)
       z := 200 }, y.2)
  else ({ s with z := z }, g)

/-- Function `UpdateStars`: the loop body applied to every star of the pool in index
order, the generator threaded through. -/
def UpdateStars : List (Star α) → α → Rand → List (Star α) × Rand
  | [], _, g => ([], g)
  | s :: rest, dt, g =>
    let s1 := updateStar s dt g
    let r := UpdateStars rest dt s1.2
    (s1.1 :: r.1, r.2)

/-- Body of the loop of `DrawStars`: project one star and draw its square. Each
float division, multiplication, addition and subtraction is rounded to single
precision. An `(int)` cast of a float outside the `int` range is undefined in C;
the embedding keeps the truncated value. -/
def drawStar (rend : Renderer) (s : Star α) : Renderer :=
  let screen_x := truncToInt
    (fl32 (fl32 (fl32 (s.x / s.z) * 100) + ((Int.tdiv WINDOW_WIDTH 2 : Int) : α)))
  let screen_y := truncToInt
    (fl32 (fl32 (fl32 (s.y / s.z) * 100) + ((Int.tdiv WINDOW_HEIGHT 2 : Int) : α)))
  let size := truncToInt (fl32 (fl32 (1 - fl32 (s.z / 200)) * 3))
  let size := if size < 1 then 1 else size
  let rend := SDL_SetRenderDrawColor rend s.r s.g s.b 255
  SDL_RenderFillRect rend (screen_x - Int.tdiv size 2) (screen_y - Int.tdiv size 2) size size

/-- Function `DrawStars`: one square per star, in index order. -/
def DrawStars (rend : Renderer) (stars : List (Star α)) : Renderer :=
  stars.foldl drawStar rend

/-! ## Rotating cube -/

/-- The `vertices` table of `Draw3DCube`. -/
def vertices : List (α × α × α) :=
  [(-50, -50, -50), (50, -50, -50), (50, 50, -50), (-50, 50, -50),
   (-50, -50, 50), (50, -50, 50), (50, 50, 50), (-50, 50, 50)]

/-- The `edges` table of `Draw3DCube`. -/
def edges : List (Int × Int) :=
  [(0, 1), (1, 2), (2, 3), (3, 0),
   (4, 5), (5, 6), (6, 7), (7, 4),
   (0, 4), (1, 5), (2, 6), (3, 7)]

/-- Rotation about the Y axis, first component: `x * cosA - z * sinA`. -/
def rotX (x z cosA sinA : α) : α := x * cosA - z * sinA

/-- Rotation about the Y axis, depth component: `x * sinA + z * cosA`. -/
def rotZ (x z cosA sinA : α) : α := x * sinA + z * cosA

/-- Perspective projection of `Draw3DCube`: `(int)((c / (rz + 200)) * proj + half)`
with `proj = 300`. -/
def project (c rz : α) (half : Int) : Int :=
  truncToInt ((c / (rz + 200)) * 300 + (half : α))

/-- Body of the loop of `Draw3DCube` for edge number `i`. -/
def cubeStep (cosA sinA : α) (rend : Renderer) (i : Int) : Option Renderer := do
  let e ← readAt edges i
  let p0 ← readAt (vertices : List (α × α × α)) e.1
  let p1 ← readAt (vertices : List (α × α × α)) e.2
  let rx0 := rotX p0.1 p0.2.2 cosA sinA
  let rz0 := rotZ p0.1 p0.2.2 cosA sinA
  let rx1 := rotX p1.1 p1.2.2 cosA sinA
  let rz1 := rotZ p1.1 p1.2.2 cosA sinA
  let sx0 := project rx0 rz0 (Int.tdiv WINDOW_WIDTH 2)
  let sy0 := project p0.2.1 rz0 (Int.tdiv WINDOW_HEIGHT 2)
  let sx1 := project rx1 rz1 (Int.tdiv WINDOW_WIDTH 2)
  let sy1 := project p1.2.1 rz1 (Int.tdiv WINDOW_HEIGHT 2)
  let rend := SDL_SetRenderDrawColor rend 255 255 255 255
  pure (SDL_RenderDrawLine rend sx0 sy0 sx1 sy1)

/-- Function `Draw3DCube`: `angle = time_ms / 1000`, then one line per edge for
`i = 0 .. 11`. The library functions `cosf` and `sinf` are parameters. -/
def Draw3DCube (cosf sinf : α → α) (rend : Renderer) (time_ms : Nat) : Option Renderer :=
  let angle : α := (time_ms : α) / 1000
  let cosA := cosf angle
  let sinA := sinf angle
  (intRange 0 (12 - 1)).foldlM (cubeStep cosA sinA) rend

/-! ## Sine wave -/

/-- Centre `y` of column `x`:
`(int)(WINDOW_HEIGHT / 2 + waveAmplitude * GetSine(x * waveFrequency + (int)(time_ms / 5)))`. -/
def waveY (sineTable : List α) (time_ms : Nat) (x : Int) : Option Int := do
  let s ← GetSine sineTable (toInt32 (toInt32 (x * 6) + toInt32 ((time_ms / 5 : Nat) : Int)))
  pure (truncToInt ((((Int.tdiv WINDOW_HEIGHT 2 : Int) : α)) + 100 * s))

/-- One colour channel of column `x` for the divisor `k`:
`(Uint8)((GetSine((x + (int)(time_ms / k)) % SINE_TABLE_SIZE) + 1.0f) * 127)`. A
`(Uint8)` cast of a float outside `0 .. 255` is undefined in C; the embedding
reduces the truncated value modulo 256. -/
def waveChannel (sineTable : List α) (time_ms : Nat) (k : Nat) (x : Int) : Option Nat := do
  let s ← GetSine sineTable
    (Int.tmod (toInt32 (x + toInt32 ((time_ms / k : Nat) : Int))) SINE_TABLE_SIZE)
  pure (toUint8 (truncToInt ((s + 1) * 127)))

/-- Body of the outer loop of `DrawSineWave` for column `x`: the colour is set
and the points `(x, y + t)` are drawn for `t = -thickness / 2 .. thickness / 2`
with `thickness = 3`. -/
def waveStep (sineTable : List α) (time_ms : Nat) (rend : Renderer) (x : Int) :
    Option Renderer := do
  let y ← waveY sineTable time_ms x
  let r ← waveChannel sineTable time_ms 10 x
  let g ← waveChannel sineTable time_ms 15 x
  let b ← waveChannel sineTable time_ms 20 x
  let rend := SDL_SetRenderDrawColor rend r g b 255
  pure ((intRange (Int.tdiv (-3) 2) (Int.tdiv 3 2)).foldl
    (fun rend t => SDL_RenderDrawPoint rend x (y + t)) rend)

/-- Function `DrawSineWave`: the loop body for `x = 0 .. WINDOW_WIDTH - 1`. -/
def DrawSineWave (rend : Renderer) (sineTable : List α) (time_ms : Nat) : Option Renderer :=
  (intRange 0 (WINDOW_WIDTH - 1)).foldlM (waveStep sineTable time_ms) rend

/-! ## Frame driver -/

/-- The process-wide state the frame loop reads and writes: the sine table, the
star pool, the random generator and the static `last_ticks` of `loop`. -/
structure Globals (α : Type) where
  sineTable : List α
  stars : List (Star α)
  rng : Rand
  last_ticks : Nat

/-- The frame delta of `loop`:
`(last_ticks ? (now - last_ticks) : 16) / 16.6667f`, the subtraction in `Uint32`. -/
def loopDt (last_ticks now : Nat) : α :=
  (((if last_ticks ≠ 0 then toUint32 ((now : Int) - (last_ticks : Int)) else 16 : Nat) : α))
    / 16.6667

/-- Body of the window loop of `loop` for one renderer that is not null. -/
def drawFrame (cosf sinf : α → α) (dt : α) (now : Nat) (s : Globals α) (rend : Renderer) :
    Option (Globals α × Renderer) := do
  let rend := SDL_SetRenderDrawColor rend 0 0 0 255
  let rend := SDL_RenderClear rend
  let u := UpdateStars s.stars dt s.rng
  let s := { s with stars := u.1, rng := u.2 }
  let rend := DrawStars rend s.stars
  let rend ← DrawSineWave rend s.sineTable now
  let rend ← Draw3DCube cosf sinf rend now
  pure (s, SDL_RenderPresent rend)

/-- The window loop of `loop`: a null renderer is skipped. -/
def loopWindows (cosf sinf : α → α) (dt : α) (now : Nat) :
    Globals α → List (Option Renderer) → Option (Globals α × List (Option Renderer))
  | s, [] => some (s, [])
  | s, none :: rest => do
    let out ← loopWindows cosf sinf dt now s rest
    pure (out.1, none :: out.2)
  | s, some rend :: rest => do
    let f ← drawFrame cosf sinf dt now s rend
    let out ← loopWindows cosf sinf dt now f.1 rest
    pure (out.1, some f.2 :: out.2)

/-- One iteration of `loop` with `now` the value `SDL_GetTicks()` returns and
`renderers` the entries `state->renderers[0 .. num_windows-1]`. The event
polling, which only writes the `done` flag, is left out. -/
def loop (cosf sinf : α → α) (s : Globals α) (now : Nat) (renderers : List (Option Renderer)) :
    Option (Globals α × List (Option Renderer)) :=
  let dt : α := loopDt s.last_ticks now
  let s := { s with last_ticks := now }
  loopWindows cosf sinf dt now s renderers

/-- The stars after a sequence of `UpdateStars` calls, one per entry of `dts`. -/
def runUpdates : List (Star α) × Rand → List α → List (Star α) × Rand
  | st, [] => st
  | st, dt :: dts => runUpdates (UpdateStars st.1 dt st.2) dts

/-! ## Commands of one frame -/

/-- Screen position `(screen_x, screen_y)` that `DrawStars` computes for a star. -/
def starScreen (s : Star α) : Int × Int :=
  (truncToInt (fl32 (fl32 (fl32 (s.x / s.z) * 100) + ((Int.tdiv WINDOW_WIDTH 2 : Int) : α))),
   truncToInt (fl32 (fl32 (fl32 (s.y / s.z) * 100) + ((Int.tdiv WINDOW_HEIGHT 2 : Int) : α))))

/-- The single-precision value of `(1.0f - z / 200.0f) * 3.0f`: the division, the
subtraction and the multiplication, each rounded. -/
def starSizeValue (z : α) : α := fl32 (fl32 (1 - fl32 (z / 200)) * 3)

/-- Square size that `DrawStars` computes for the depth `z`:
`size = (int)((1.0f - z / 200.0f) * 3.0f); if (size < 1) size = 1`. -/
def starSize (z : α) : Int :=
  let size := truncToInt (starSizeValue z)
  if size < 1 then 1 else size

/-- The rectangle `{ screen_x - size / 2, screen_y - size / 2, size, size }` that
`DrawStars` fills for a star, in the star's colour with alpha 255. -/
def starRect (s : Star α) : DrawCmd :=
  DrawCmd.fillRect ((starScreen s).1 - Int.tdiv (starSize s.z) 2)
    ((starScreen s).2 - Int.tdiv (starSize s.z) 2) (starSize s.z) (starSize s.z)
    ⟨s.r, s.g, s.b, 255⟩

/-- Star size as the component contract of the specification words it:
`max(1, round((1 - z/200) * 3))`, `round` rounding to the nearest integer. -/
def specStarSize (z : α) : Int := max 1 (round ((1 - z / 200) * 3))

/-- The three points that `DrawSineWave` draws in column `x`; no point where a
read of the sine table would fall outside the table. -/
def waveColumn (sineTable : List α) (time_ms : Nat) (x : Int) : List DrawCmd :=
  match waveY sineTable time_ms x, waveChannel sineTable time_ms 10 x,
    waveChannel sineTable time_ms 15 x, waveChannel sineTable time_ms 20 x with
  | some y, some r, some g, some b =>
    [DrawCmd.point x (y - 1) ⟨r, g, b, 255⟩, DrawCmd.point x y ⟨r, g, b, 255⟩,
     DrawCmd.point x (y + 1) ⟨r, g, b, 255⟩]
  | _, _, _, _ => []

/-- Screen position `(sx, sy)` that `Draw3DCube` computes for the vertex with
index `v`: rotation about Y, then projection. -/
def vertexScreen (cosA sinA : α) (v : Int) : Option (Int × Int) :=
  (readAt (vertices : List (α × α × α)) v).map fun p =>
    (project (rotX p.1 p.2.2 cosA sinA) (rotZ p.1 p.2.2 cosA sinA) (Int.tdiv WINDOW_WIDTH 2),
     project p.2.1 (rotZ p.1 p.2.2 cosA sinA) (Int.tdiv WINDOW_HEIGHT 2))

/-- The white line that `Draw3DCube` draws for the edge `e`; no line where a read
of the vertex table would fall outside the table. -/
def cubeLine (cosA sinA : α) (e : Int × Int) : List DrawCmd :=
  match vertexScreen cosA sinA e.1, vertexScreen cosA sinA e.2 with
  | some a, some b => [DrawCmd.line a.1 a.2 b.1 b.2 ⟨255, 255, 255, 255⟩]
  | _, _ => []

/-- The commands one iteration of the window loop of `loop` sends to a renderer
that is not null, for the star pool `stars` as it is after `UpdateStars`: the
clear, the star rectangles, the wave points, the cube lines, the present. -/
def frameCmds (cosf sinf : α → α) (sineTable : List α) (stars : List (Star α)) (now : Nat) :
    List DrawCmd :=
  [DrawCmd.clear ⟨0, 0, 0, 255⟩] ++ stars.map starRect ++
    (List.range 640).flatMap (fun k : Nat => waveColumn sineTable now (k : Int)) ++
    edges.flatMap (cubeLine (cosf ((now : α) / 1000)) (sinf ((now : α) / 1000))) ++
    [DrawCmd.present]

/-- The unordered pair of the two vertex indices of an edge. -/
def edgeEnds (e : Int × Int) : Int × Int := (min e.1 e.2, max e.1 e.2)

/-- Number of entries of the edge table that have the vertex index `v` as an
endpoint. -/
def edgeCount (v : Int) : Nat := (edges.filter fun e => e.1 = v ∨ e.2 = v).length

end Float

/-! ## Sampler lemmas -/

/-- C remainder of a negative dividend by a positive divisor is the negated
remainder of the magnitude. -/
theorem tmod_of_neg (a : Int) (m : Nat) (h : a < 0) :
    Int.tmod a m = -((-a) % (m : Int)) := by
  cases a with
  | ofNat n => exact absurd h (by simp)
  | negSucc n =>
    show -(((n + 1) % m : Nat) : Int) = -((-(Int.negSucc n)) % (m : Int))
    rw [Int.neg_negSucc]
    norm_cast

/-- The normalised index is the non-negative remainder modulo 360. -/
theorem sineIndex_eq_emod (angle : Int) : sineIndex angle = angle % 360 := by
  unfold sineIndex SINE_TABLE_SIZE
  rcases le_or_lt 0 angle with h | h
  · rw [Int.tmod_eq_emod h (by decide)]
    simp only [Nat.cast_ofNat]
    have := Int.emod_nonneg angle (show (360 : Int) ≠ 0 by decide)
    rw [if_neg (by omega)]
  · rw [tmod_of_neg angle 360 h]
    simp only [Nat.cast_ofNat]
    split_ifs with h2 <;> omega

/-- With a table of 360 entries the read of `GetSine` is the entry at the
non-negative remainder of the angle. -/
theorem GetSine_eq_getElem {β : Type} (sineTable : List β) (angle : Int) :
    GetSine sineTable angle = sineTable[(angle % 360).toNat]? := by
  unfold GetSine readAt
  rw [sineIndex_eq_emod]
  rw [if_pos (Int.emod_nonneg angle (by decide))]

section StarLemmas

variable {α : Type} [LinearOrderedField α]

/-- For a non-negative `rand()` value `v`, `v % 640 - 640 / 2` lies in `[-320, 320)`. -/
theorem respawn_x_range (v : Int) (hv : 0 ≤ v) :
    -320 ≤ Int.tmod v WINDOW_WIDTH - Int.tdiv WINDOW_WIDTH 2 ∧
    Int.tmod v WINDOW_WIDTH - Int.tdiv WINDOW_WIDTH 2 < 320 := by
  have hd : Int.tdiv WINDOW_WIDTH 2 = 320 := by decide
  have hm : Int.tmod v WINDOW_WIDTH = v % 640 := Int.tmod_eq_emod hv (by decide)
  rw [hd, hm]
  omega

/-- For a non-negative `rand()` value `v`, `v % 480 - 480 / 2` lies in `[-240, 240)`. -/
theorem respawn_y_range (v : Int) (hv : 0 ≤ v) :
    -240 ≤ Int.tmod v WINDOW_HEIGHT - Int.tdiv WINDOW_HEIGHT 2 ∧
    Int.tmod v WINDOW_HEIGHT - Int.tdiv WINDOW_HEIGHT 2 < 240 := by
  have hd : Int.tdiv WINDOW_HEIGHT 2 = 240 := by decide
  have hm : Int.tmod v WINDOW_HEIGHT = v % 480 := Int.tmod_eq_emod hv (by decide)
  rw [hd, hm]
  omega

/-- The generator left by `updateStar` is a shift of the one it was given. -/
theorem updateStar_rng (s : Star α) (dt : α) (g : Rand) :
    ∃ k, (updateStar s dt g).2 = fun n => g (n + k) := by
  unfold updateStar
  dsimp only
  split_ifs
  · exact ⟨2, rfl⟩
  · exact ⟨0, rfl⟩

/-- A star that `updateStar` respawns. -/
theorem updateStar_respawn (s : Star α) (dt : α) (g : Rand) (hz : s.z - 2 * dt ≤ 0) :
    (updateStar s dt g).1 =
      { s with
        x := ((Int.tmod (g 0) WINDOW_WIDTH - Int.tdiv WINDOW_WIDTH 2 : Int) : α)
        y := ((Int.tmod (g 1) WINDOW_HEIGHT - Int.tdiv WINDOW_HEIGHT 2 : Int) : α)
        z := 200 } := by
  unfold updateStar
  rw [if_pos hz]
  rfl

/-- A star that `updateStar` does not respawn. -/
theorem updateStar_move (s : Star α) (dt : α) (g : Rand) (hz : ¬ s.z - 2 * dt ≤ 0) :
    updateStar s dt g = ({ s with z := s.z - 2 * dt }, g) := by
  unfold updateStar
  rw [if_neg hz]

/-- One step keeps the depth in `(0, 200]` when `dt` is not negative. -/
theorem updateStar_depth (s : Star α) (dt : α) (g : Rand) (hdt : 0 ≤ dt)
    (hs : 0 < s.z ∧ s.z ≤ 200) :
    0 < (updateStar s dt g).1.z ∧ (updateStar s dt g).1.z ≤ 200 := by
  by_cases hz : s.z - 2 * dt ≤ 0
  · rw [updateStar_respawn s dt g hz]
    exact ⟨by norm_num, le_refl _⟩
  · rw [updateStar_move s dt g hz]
    simp only
    constructor
    · exact not_le.mp hz
    · linarith [hs.2]

/-- Function `UpdateStars` keeps the number of stars. -/
theorem UpdateStars_length (stars : List (Star α)) (dt : α) (g : Rand) :
    (UpdateStars stars dt g).1.length = stars.length := by
  induction stars generalizing g with
  | nil => rfl
  | cons s rest ih => simp [UpdateStars, ih]

/-- Function `UpdateStars` keeps every depth in `(0, 200]` when `dt` is not negative. -/
theorem UpdateStars_depth (stars : List (Star α)) (dt : α) (g : Rand) (hdt : 0 ≤ dt)
    (hs : ∀ s ∈ stars, 0 < s.z ∧ s.z ≤ 200) :
    ∀ s ∈ (UpdateStars stars dt g).1, 0 < s.z ∧ s.z ≤ 200 := by
  induction stars generalizing g with
  | nil => intro s hmem; simp [UpdateStars] at hmem
  | cons s0 rest ih =>
    intro s hmem
    simp only [UpdateStars, List.mem_cons] at hmem
    rcases hmem with h | h
    · rw [h]
      exact updateStar_depth s0 dt g hdt (hs s0 (List.mem_cons_self _ _))
    · exact ih _ (fun t ht => hs t (List.mem_cons_of_mem _ ht)) s h

/-- The star `initStar` builds from non-negative `rand()` values has depth in
`[1, 200]`. -/
theorem initStar_depth (g : Rand) (hg : ∀ n, 0 ≤ g n) :
    1 ≤ (initStar (α := α) g).1.z ∧ (initStar (α := α) g).1.z ≤ 200 := by
  have hm : Int.tmod (g 2) 200 = g 2 % 200 := Int.tmod_eq_emod (hg 2) (by decide)
  have h0 : 0 ≤ g 2 % 200 := Int.emod_nonneg _ (by decide)
  have h1 : g 2 % 200 < 200 := Int.emod_lt_of_pos _ (by decide)
  have hz : (initStar (α := α) g).1.z = ((Int.tmod (g 2) 200 + 1 : Int) : α) := rfl
  rw [hz, hm]
  constructor
  · have : (1 : Int) ≤ g 2 % 200 + 1 := by omega
    exact_mod_cast this
  · have : g 2 % 200 + 1 ≤ (200 : Int) := by omega
    exact_mod_cast this

/-- The loop of `InitStars` builds `n` stars, each with depth in `[1, 200]`. -/
theorem initStarsLoop_spec (n : Nat) (g : Rand) (hg : ∀ k, 0 ≤ g k) :
    (initStarsLoop (α := α) n g).1.length = n ∧
    ∀ s ∈ (initStarsLoop (α := α) n g).1, 1 ≤ s.z ∧ s.z ≤ 200 := by
  induction n generalizing g with
  | zero => exact ⟨rfl, fun s hmem => by simp [initStarsLoop] at hmem⟩
  | succ n ih =>
    have hshift : ∀ k, 0 ≤ (initStar (α := α) g).2 k := fun k => hg _
    obtain ⟨hl, hall⟩ := ih (initStar (α := α) g).2 hshift
    refine ⟨by simp [initStarsLoop, hl], ?_⟩
    intro s hmem
    simp only [initStarsLoop, List.mem_cons] at hmem
    rcases hmem with h | h
    · rw [h]; exact initStar_depth g hg
    · exact hall s h

/-- A sequence of `UpdateStars` calls with non-negative deltas keeps the number
of stars and keeps every depth in `(0, 200]`. -/
theorem runUpdates_depth (st : List (Star α) × Rand) (dts : List α)
    (hdt : ∀ dt ∈ dts, 0 ≤ dt) (hs : ∀ s ∈ st.1, 0 < s.z ∧ s.z ≤ 200) :
    (runUpdates st dts).1.length = st.1.length ∧
    ∀ s ∈ (runUpdates st dts).1, 0 < s.z ∧ s.z ≤ 200 := by
  induction dts generalizing st with
  | nil => exact ⟨rfl, hs⟩
  | cons dt rest ih =>
    have h0 : 0 ≤ dt := hdt dt (List.mem_cons_self _ _)
    have hrest : ∀ d ∈ rest, 0 ≤ d := fun d hd => hdt d (List.mem_cons_of_mem _ hd)
    obtain ⟨hl, hall⟩ := ih (UpdateStars st.1 dt st.2) hrest
      (UpdateStars_depth st.1 dt st.2 h0 hs)
    exact ⟨by rw [runUpdates, hl, UpdateStars_length], hall⟩

end StarLemmas

/-! ## Loop lemmas -/

/-- A monadic fold whose step succeeds on every entry of the list is the plain
fold. -/
theorem foldlM_total {σ β : Type} (f : σ → β → Option σ) (step : σ → β → σ)
    (l : List β) (h : ∀ s, ∀ b ∈ l, f s b = some (step s b)) (s : σ) :
    l.foldlM f s = some (l.foldl step s) := by
  induction l generalizing s with
  | nil => rfl
  | cons b rest ih =>
    rw [List.foldlM_cons, h s b (List.mem_cons_self _ _)]
    exact ih (fun t c hc => h t c (List.mem_cons_of_mem _ hc)) (step s b)

/-- A monadic fold whose step succeeds on every entry of the list succeeds. -/
theorem foldlM_isSome {σ β : Type} (f : σ → β → Option σ) (l : List β)
    (h : ∀ s, ∀ b ∈ l, ∃ t, f s b = some t) (s : σ) : ∃ out, l.foldlM f s = some out := by
  induction l generalizing s with
  | nil => exact ⟨s, rfl⟩
  | cons b rest ih =>
    obtain ⟨t, ht⟩ := h s b (List.mem_cons_self _ _)
    rw [List.foldlM_cons, ht]
    exact ih (fun u c hc => h u c (List.mem_cons_of_mem _ hc)) t

/-- The commands after a fold whose step appends `col b` to the commands. -/
theorem foldl_cmds {β : Type} (step : Renderer → β → Renderer) (col : β → List DrawCmd)
    (h : ∀ r b, (step r b).cmds = r.cmds ++ col b) (l : List β) (r : Renderer) :
    (l.foldl step r).cmds = r.cmds ++ l.flatMap col := by
  induction l generalizing r with
  | nil => simp
  | cons b rest ih =>
    rw [List.foldl_cons, ih, h, List.flatMap_cons, List.append_assoc]

/-- Number of commands of a run of columns of `n` commands each. -/
theorem flatMap_length_const {β : Type} (col : β → List DrawCmd) (n : Nat)
    (h : ∀ b, (col b).length = n) (l : List β) : (l.flatMap col).length = l.length * n := by
  induction l with
  | nil => simp
  | cons b rest ih =>
    rw [List.flatMap_cons, List.length_append, ih, h, List.length_cons]
    ring

/-- The loop `for (v = 0; v < n; v++)` runs through `0, 1, .., n - 1`. -/
theorem intRange_zero (n : Nat) :
    intRange 0 ((n : Int) - 1) = (List.range n).map fun k : Nat => (k : Int) := by
  unfold intRange
  have h : ((n : Int) - 1 + 1 - 0).toNat = n := by omega
  rw [h]
  apply List.map_congr_left
  intro k _
  omega

/-! ## Wave lemmas -/

section WaveLemmas

variable {α : Type} [LinearOrderedField α] [FloorRing α]

/-- With a table of 360 entries `GetSine` returns a value at every angle. -/
theorem GetSine_isSome {β : Type} (sineTable : List β) (hlen : sineTable.length = 360)
    (angle : Int) : ∃ v, GetSine sineTable angle = some v := by
  have h0 : 0 ≤ angle % 360 := Int.emod_nonneg angle (by decide)
  have h1 : angle % 360 < 360 := Int.emod_lt_of_pos angle (by decide)
  have hb : (angle % 360).toNat < sineTable.length := by omega
  exact ⟨sineTable[(angle % 360).toNat], by
    rw [GetSine_eq_getElem, List.getElem?_eq_getElem hb]⟩

/-- With a table of 360 entries every column has a centre. -/
theorem waveY_isSome (sineTable : List α) (hlen : sineTable.length = 360) (time_ms : Nat)
    (x : Int) : ∃ y, waveY sineTable time_ms x = some y := by
  obtain ⟨v, hv⟩ := GetSine_isSome sineTable hlen
    (toInt32 (toInt32 (x * 6) + toInt32 ((time_ms / 5 : Nat) : Int)))
  exact ⟨_, by unfold waveY; rw [hv]; rfl⟩

/-- With a table of 360 entries every column has each colour channel. -/
theorem waveChannel_isSome (sineTable : List α) (hlen : sineTable.length = 360)
    (time_ms k : Nat) (x : Int) : ∃ c, waveChannel sineTable time_ms k x = some c := by
  obtain ⟨v, hv⟩ := GetSine_isSome sineTable hlen
    (Int.tmod (toInt32 (x + toInt32 ((time_ms / k : Nat) : Int))) SINE_TABLE_SIZE)
  exact ⟨_, by unfold waveChannel; rw [hv]; rfl⟩

/-- The loop body of `DrawSineWave` on a column whose centre and channels are
known: the colour is set and three points are drawn. -/
theorem waveStep_eq (sineTable : List α) (time_ms : Nat) (rend : Renderer) (x y : Int)
    (r g b : Nat) (hy : waveY sineTable time_ms x = some y)
    (hr : waveChannel sineTable time_ms 10 x = some r)
    (hg : waveChannel sineTable time_ms 15 x = some g)
    (hb : waveChannel sineTable time_ms 20 x = some b) :
    waveStep sineTable time_ms rend x = some
      { drawColor := ⟨r, g, b, 255⟩
        cmds := rend.cmds ++ [DrawCmd.point x (y - 1) ⟨r, g, b, 255⟩,
          DrawCmd.point x y ⟨r, g, b, 255⟩, DrawCmd.point x (y + 1) ⟨r, g, b, 255⟩] } := by
  have hrange : intRange (Int.tdiv (-3) 2) (Int.tdiv 3 2) = [-1, 0, 1] := by decide
  unfold waveStep
  rw [hy, hr, hg, hb, hrange]
  simp [SDL_SetRenderDrawColor, SDL_RenderDrawPoint, Int.sub_eq_add_neg]

end WaveLemmas

/-! ## Cube lemmas -/

section CubeLemmas

variable {α : Type} [LinearOrderedField α] [FloorRing α]

/-- The loop `for (i = 0; i < 12; i++)` of `Draw3DCube` runs through `0 .. 11`. -/
theorem cube_loop_range : intRange 0 (12 - 1) = [0, 1, 2, 3, 4, 5, 6, 7, 8, 9, 10, 11] := by
  decide

/-- Every index the cube loop runs through reads an entry of the edge table. -/
theorem edges_read (i : Int) (hi : i ∈ intRange 0 (12 - 1)) :
    ∃ e, readAt edges i = some e ∧ e ∈ edges := by
  rw [cube_loop_range] at hi
  simp only [List.mem_cons, List.mem_singleton, List.not_mem_nil, or_false] at hi
  rcases hi with h | h | h | h | h | h | h | h | h | h | h | h <;> subst h <;>
    exact ⟨_, rfl, by simp [edges]⟩

/-- Both indices of every edge read an entry of the vertex table. -/
theorem vertices_read {F : Type} [LinearOrderedField F] (e : Int × Int) (he : e ∈ edges) :
    ∃ p0 p1 : F × F × F, readAt vertices e.1 = some p0 ∧ readAt vertices e.2 = some p1 := by
  simp only [edges, List.mem_cons, List.mem_singleton, List.not_mem_nil, or_false] at he
  rcases he with h | h | h | h | h | h | h | h | h | h | h | h <;> subst h <;>
    exact ⟨_, _, rfl, rfl⟩

/-- The loop body of `Draw3DCube` on an edge whose two vertices are known: the
colour is set to white and one line is drawn between the two projections. -/
theorem cubeStep_eq (cosA sinA : α) (r : Renderer) (i : Int) (e : Int × Int)
    (p0 p1 : α × α × α) (he : readAt edges i = some e)
    (h0 : readAt vertices e.1 = some p0) (h1 : readAt vertices e.2 = some p1) :
    cubeStep cosA sinA r i = some
      { drawColor := ⟨255, 255, 255, 255⟩
        cmds := r.cmds ++ [DrawCmd.line
          (project (rotX p0.1 p0.2.2 cosA sinA) (rotZ p0.1 p0.2.2 cosA sinA)
            (Int.tdiv WINDOW_WIDTH 2))
          (project p0.2.1 (rotZ p0.1 p0.2.2 cosA sinA) (Int.tdiv WINDOW_HEIGHT 2))
          (project (rotX p1.1 p1.2.2 cosA sinA) (rotZ p1.1 p1.2.2 cosA sinA)
            (Int.tdiv WINDOW_WIDTH 2))
          (project p1.2.1 (rotZ p1.1 p1.2.2 cosA sinA) (Int.tdiv WINDOW_HEIGHT 2))
          ⟨255, 255, 255, 255⟩] } := by
  unfold cubeStep
  rw [he]
  simp only [Option.bind_eq_bind, Option.some_bind, h0, h1]
  rfl

/-- Function `Draw3DCube` always returns a renderer. -/
theorem Draw3DCube_isSome (cosf sinf : α → α) (rend : Renderer) (time_ms : Nat) :
    ∃ out, Draw3DCube cosf sinf rend time_ms = some out := by
  unfold Draw3DCube
  apply foldlM_isSome
  intro r i hi
  obtain ⟨e, he, hmem⟩ := edges_read i hi
  obtain ⟨p0, p1, h0, h1⟩ := vertices_read (F := α) e hmem
  exact ⟨_, cubeStep_eq _ _ r i e p0 p1 he h0 h1⟩

end CubeLemmas

/-! ## Frame lemmas -/

section FrameLemmas

variable {α : Type} [LinearOrderedField α] [FloorRing α]

/-- With a table of 360 entries `DrawSineWave` returns a renderer. -/
theorem DrawSineWave_isSome (rend : Renderer) (sineTable : List α) (time_ms : Nat)
    (hlen : sineTable.length = 360) : ∃ out, DrawSineWave rend sineTable time_ms = some out := by
  unfold DrawSineWave
  apply foldlM_isSome
  intro r x _
  obtain ⟨y, hy⟩ := waveY_isSome sineTable hlen time_ms x
  obtain ⟨cr, hr⟩ := waveChannel_isSome sineTable hlen time_ms 10 x
  obtain ⟨cg, hg⟩ := waveChannel_isSome sineTable hlen time_ms 15 x
  obtain ⟨cb, hb⟩ := waveChannel_isSome sineTable hlen time_ms 20 x
  exact ⟨_, waveStep_eq sineTable time_ms r x y cr cg cb hy hr hg hb⟩

/-- With a table of 360 entries the frame of one renderer is drawn: the stars
are those `UpdateStars dt` returns, the table and `last_ticks` are unchanged. -/
theorem drawFrame_total (cosf sinf : α → α) (dt : α) (now : Nat) (s : Globals α)
    (rend : Renderer) (hlen : s.sineTable.length = 360) :
    ∃ out, drawFrame cosf sinf dt now s rend = some out ∧
      out.1.stars = (UpdateStars s.stars dt s.rng).1 ∧
      out.1.rng = (UpdateStars s.stars dt s.rng).2 ∧
      out.1.sineTable = s.sineTable ∧ out.1.last_ticks = s.last_ticks := by
  obtain ⟨w, hw⟩ := DrawSineWave_isSome
    (DrawStars (SDL_RenderClear (SDL_SetRenderDrawColor rend 0 0 0 255))
      (UpdateStars s.stars dt s.rng).1) s.sineTable now hlen
  obtain ⟨c, hc⟩ := Draw3DCube_isSome cosf sinf w now
  refine ⟨({ s with stars := (UpdateStars s.stars dt s.rng).1,
                    rng := (UpdateStars s.stars dt s.rng).2 }, SDL_RenderPresent c),
    ?_, rfl, rfl, rfl, rfl⟩
  unfold drawFrame
  simp only [hw, hc, Option.bind_eq_bind, Option.some_bind]
  rfl

/-- With a table of 360 entries the window loop returns, keeping the table and
`last_ticks`. -/
theorem loopWindows_total (cosf sinf : α → α) (dt : α) (now : Nat) (s : Globals α)
    (renderers : List (Option Renderer)) (hlen : s.sineTable.length = 360) :
    ∃ out, loopWindows cosf sinf dt now s renderers = some out ∧
      out.1.sineTable = s.sineTable ∧ out.1.last_ticks = s.last_ticks ∧
      out.2.length = renderers.length := by
  induction renderers generalizing s with
  | nil => exact ⟨(s, []), rfl, rfl, rfl, rfl⟩
  | cons r rest ih =>
    cases r with
    | none =>
      obtain ⟨out, ho, h1, h2, h3⟩ := ih s hlen
      refine ⟨(out.1, none :: out.2), ?_, h1, h2, by simp [h3]⟩
      simp only [loopWindows, ho, Option.bind_eq_bind, Option.some_bind]
      rfl
    | some rend =>
      obtain ⟨f, hf, _, _, ht, hl⟩ := drawFrame_total cosf sinf dt now s rend hlen
      obtain ⟨out, ho, h1, h2, h3⟩ := ih f.1 (by rw [ht]; exact hlen)
      refine ⟨(out.1, some f.2 :: out.2), ?_, by rw [h1, ht], by rw [h2, hl], by simp [h3]⟩
      simp only [loopWindows, hf, ho, Option.bind_eq_bind, Option.some_bind]
      rfl

/-- The frame delta when no tick is recorded. -/
theorem loopDt_zero {F : Type} [LinearOrderedField F] (now : Nat) :
    (loopDt 0 now : F) = 16 / 16.6667 := by
  unfold loopDt
  simp

/-- The frame delta after a recorded tick that is not zero and not later than
`now`. -/
theorem loopDt_of_ne_zero {F : Type} [LinearOrderedField F] (prev now : Nat)
    (hprev : prev ≠ 0) (hle : prev ≤ now) (hnow : now < 2 ^ 32) :
    (loopDt prev now : F) = (((now - prev : Nat) : F)) / 16.6667 := by
  unfold loopDt toUint32
  rw [if_pos hprev]
  have h : (((now : Int) - (prev : Int)) % 2 ^ 32).toNat = now - prev := by omega
  rw [h]

end FrameLemmas

/-! ## Rounding lemmas -/

section RoundingLemmas

variable {α : Type} [LinearOrderedField α] [FloorRing α]

/-- The rounded value is the floor, or the floor plus one when the fraction is
at least one half. -/
theorem roundHalfEven_cases (q : α) :
    roundHalfEven q = Int.floor q ∨
      (roundHalfEven q = Int.floor q + 1 ∧ (1 : α) / 2 ≤ q - (Int.floor q : α)) := by
  unfold roundHalfEven
  dsimp only
  split_ifs with h1 h2 h3
  · exact Or.inl rfl
  · exact Or.inr ⟨rfl, le_of_lt h2⟩
  · exact Or.inl rfl
  · exact Or.inr ⟨rfl, not_lt.mp h1⟩

/-- An integer is rounded to itself. -/
theorem roundHalfEven_intCast (n : Int) : roundHalfEven ((n : Int) : α) = n := by
  unfold roundHalfEven
  dsimp only
  rw [Int.floor_intCast, sub_self, if_pos (by norm_num)]

/-- An integer below the value is below the rounded value. -/
theorem int_le_roundHalfEven (q : α) (n : Int) (h : (n : α) ≤ q) : n ≤ roundHalfEven q := by
  have hf : n ≤ Int.floor q := Int.le_floor.mpr h
  rcases roundHalfEven_cases q with h1 | ⟨h1, _⟩ <;> omega

/-- An integer above the value is above the rounded value. -/
theorem roundHalfEven_le_int (q : α) (n : Int) (h : q ≤ (n : α)) : roundHalfEven q ≤ n := by
  have hf : Int.floor q ≤ n := Int.floor_le_floor h |>.trans (le_of_eq (Int.floor_intCast n))
  rcases roundHalfEven_cases q with h1 | ⟨h1, h2⟩
  · omega
  · have hlt : (Int.floor q : α) < (n : α) := by
      have := Int.floor_le q
      linarith
    have : Int.floor q < n := by exact_mod_cast hlt
    omega

/-- Rounding to the nearest integer is monotone. -/
theorem roundHalfEven_mono (q q' : α) (h : q ≤ q') : roundHalfEven q ≤ roundHalfEven q' := by
  have hff : Int.floor q ≤ Int.floor q' := Int.floor_le_floor h
  rcases lt_or_eq_of_le hff with hlt | heq
  · have h1 : roundHalfEven q ≤ Int.floor q + 1 := by
      rcases roundHalfEven_cases q with h1 | ⟨h1, _⟩ <;> omega
    have h2 : Int.floor q' ≤ roundHalfEven q' := by
      rcases roundHalfEven_cases q' with h1 | ⟨h1, _⟩ <;> omega
    omega
  · unfold roundHalfEven
    dsimp only
    rw [← heq]
    have hr : q - (Int.floor q : α) ≤ q' - (Int.floor q : α) := by linarith
    split_ifs <;> first | omega | (exfalso; linarith)

/-- Rounding to the nearest integer moves a value by at most one half. -/
theorem roundHalfEven_err (q : α) : |((roundHalfEven q : Int) : α) - q| ≤ 1 / 2 := by
  have h0 := Int.floor_le q
  have h1 := Int.lt_floor_add_one q
  unfold roundHalfEven
  dsimp only
  rw [abs_le]
  split_ifs <;> push_cast <;> constructor <;> linarith

/-- Powers of two are positive. -/
theorem two_zpow_pos {F : Type} [LinearOrderedField F] (n : Int) : (0 : F) < (2 : F) ^ n :=
  zpow_pos (by norm_num) n

/-- The binade exponent is never below `-126`. -/
theorem binade_ge (x : α) : -126 ≤ binade x := le_max_right _ _

/-- A value lies below the top of its binade. -/
theorem abs_lt_zpow_binade (x : α) : |x| < (2 : α) ^ (binade x + 1) := by
  have h1 : |x| < ((2 : Nat) : α) ^ (Int.log 2 |x| + 1) :=
    Int.lt_zpow_succ_log_self (by norm_num) |x|
  rw [Nat.cast_ofNat] at h1
  refine lt_of_lt_of_le h1 (zpow_le_zpow_right₀ (by norm_num) ?_)
  have : Int.log 2 |x| ≤ binade x := le_max_left _ _
  omega

/-- Above the subnormal range a value lies above the bottom of its binade. -/
theorem zpow_binade_le (x : α) (hx : x ≠ 0) (h : -126 < binade x) :
    (2 : α) ^ binade x ≤ |x| := by
  have hlog : binade x = Int.log 2 |x| := by
    unfold binade at h ⊢
    rcases le_total (Int.log 2 |x|) (-126) with h1 | h1
    · rw [max_eq_right h1] at h; omega
    · exact max_eq_left h1
  rw [hlog]
  have h1 : ((2 : Nat) : α) ^ Int.log 2 |x| ≤ |x| :=
    Int.zpow_log_le_self (by norm_num) (abs_pos.mpr hx)
  rwa [Nat.cast_ofNat] at h1

/-- A value below `2 ^ (n + 1)` has binade exponent at most `n`. -/
theorem binade_le (x : α) (n : Int) (hx : x ≠ 0) (hn : -126 ≤ n)
    (h : |x| < (2 : α) ^ (n + 1)) : binade x ≤ n := by
  have h1 : |x| < ((2 : Nat) : α) ^ (n + 1) := by rwa [Nat.cast_ofNat]
  have h2 : Int.log 2 |x| < n + 1 :=
    (Int.lt_zpow_iff_log_lt (by norm_num) (abs_pos.mpr hx)).mp h1
  unfold binade
  exact max_le (by omega) hn

/-- Rounding of a value that is not zero. -/
theorem fl32_of_ne (x : α) (hx : x ≠ 0) :
    fl32 x = (roundHalfEven (x / (2 : α) ^ (binade x - 23)) : α) * (2 : α) ^ (binade x - 23) := by
  unfold fl32
  rw [if_neg hx]

/-- Zero is rounded to zero. -/
theorem fl32_zero : fl32 (0 : α) = 0 := by
  unfold fl32
  rw [if_pos rfl]

/-- Rounding keeps a value that is not negative so. -/
theorem fl32_nonneg (x : α) (hx : 0 ≤ x) : 0 ≤ fl32 x := by
  rcases eq_or_lt_of_le hx with h | h
  · rw [← h, fl32_zero]
  · rw [fl32_of_ne x (ne_of_gt h)]
    have hu := two_zpow_pos (F := α) (binade x - 23)
    have hq : ((0 : Int) : α) ≤ x / (2 : α) ^ (binade x - 23) := by
      rw [Int.cast_zero]; exact div_nonneg hx (le_of_lt hu)
    have := int_le_roundHalfEven _ 0 hq
    have h0 : (0 : α) ≤ ((roundHalfEven (x / (2 : α) ^ (binade x - 23)) : Int) : α) := by
      exact_mod_cast this
    exact mul_nonneg h0 (le_of_lt hu)

/-- Rounding keeps a value that is not positive so. -/
theorem fl32_nonpos (x : α) (hx : x ≤ 0) : fl32 x ≤ 0 := by
  rcases eq_or_lt_of_le hx with h | h
  · rw [h, fl32_zero]
  · rw [fl32_of_ne x (ne_of_lt h)]
    have hu := two_zpow_pos (F := α) (binade x - 23)
    have hq : x / (2 : α) ^ (binade x - 23) ≤ ((0 : Int) : α) := by
      rw [Int.cast_zero]; exact div_nonpos_of_nonpos_of_nonneg hx (le_of_lt hu)
    have := roundHalfEven_le_int _ 0 hq
    have h0 : ((roundHalfEven (x / (2 : α) ^ (binade x - 23)) : Int) : α) ≤ 0 := by
      exact_mod_cast this
    exact mul_nonpos_of_nonpos_of_nonneg h0 (le_of_lt hu)

/-- Values in the binade of `x > 0`: `fl32 x ≤ 2 ^ (binade x + 1)`. -/
theorem fl32_le_top (x : α) (hx : 0 < x) : fl32 x ≤ (2 : α) ^ (binade x + 1) := by
  rw [fl32_of_ne x (ne_of_gt hx)]
  have hu := two_zpow_pos (F := α) (binade x - 23)
  have hlt := abs_lt_zpow_binade x
  rw [abs_of_pos hx] at hlt
  have hsplit : (2 : α) ^ (binade x + 1) = (2 : α) ^ (24 : Int) * (2 : α) ^ (binade x - 23) := by
    rw [← zpow_add₀ (by norm_num : (2 : α) ≠ 0)]
    congr 1; omega
  have hq : x / (2 : α) ^ (binade x - 23) ≤ (((2 : Int) ^ 24 : Int) : α) := by
    rw [div_le_iff₀ hu]
    have : (((2 : Int) ^ 24 : Int) : α) = (2 : α) ^ (24 : Int) := by norm_num
    rw [this, ← hsplit]
    exact le_of_lt hlt
  have h1 := roundHalfEven_le_int _ _ hq
  have h2 : ((roundHalfEven (x / (2 : α) ^ (binade x - 23)) : Int) : α)
      ≤ (((2 : Int) ^ 24 : Int) : α) := by exact_mod_cast h1
  rw [hsplit]
  have : (((2 : Int) ^ 24 : Int) : α) = (2 : α) ^ (24 : Int) := by norm_num
  rw [this] at h2
  exact mul_le_mul_of_nonneg_right h2 (le_of_lt hu)

/-- For `x > 0` above the subnormal range, `2 ^ binade x ≤ fl32 x`. -/
theorem fl32_ge_bot (x : α) (hx : 0 < x) (h : -126 < binade x) :
    (2 : α) ^ binade x ≤ fl32 x := by
  rw [fl32_of_ne x (ne_of_gt hx)]
  have hu := two_zpow_pos (F := α) (binade x - 23)
  have hge := zpow_binade_le x (ne_of_gt hx) h
  rw [abs_of_pos hx] at hge
  have hsplit : (2 : α) ^ binade x = (2 : α) ^ (23 : Int) * (2 : α) ^ (binade x - 23) := by
    rw [← zpow_add₀ (by norm_num : (2 : α) ≠ 0)]
    congr 1; omega
  have hpow : (((2 : Int) ^ 23 : Int) : α) = (2 : α) ^ (23 : Int) := by norm_num
  have hq : (((2 : Int) ^ 23 : Int) : α) ≤ x / (2 : α) ^ (binade x - 23) := by
    rw [le_div_iff₀ hu, hpow, ← hsplit]
    exact hge
  have h1 := int_le_roundHalfEven _ _ hq
  have h2 : (((2 : Int) ^ 23 : Int) : α)
      ≤ ((roundHalfEven (x / (2 : α) ^ (binade x - 23)) : Int) : α) := by exact_mod_cast h1
  rw [hsplit]
  rw [hpow] at h2
  exact mul_le_mul_of_nonneg_right h2 (le_of_lt hu)

/-- The binade exponent is monotone on the positive values. -/
theorem binade_mono (x y : α) (hx : 0 < x) (h : x ≤ y) : binade x ≤ binade y := by
  unfold binade
  have hl : Int.log 2 |x| ≤ Int.log 2 |y| := by
    rw [abs_of_pos hx, abs_of_pos (lt_of_lt_of_le hx h)]
    exact Int.log_mono_right hx h
  exact max_le_max hl (le_refl _)

/-- Rounding to binary32 is monotone on the non-negative values. -/
theorem fl32_mono (x y : α) (hx : 0 ≤ x) (h : x ≤ y) : fl32 x ≤ fl32 y := by
  rcases eq_or_lt_of_le hx with h0 | h0
  · rw [← h0, fl32_zero]; exact fl32_nonneg y (le_trans hx h)
  · have hy : 0 < y := lt_of_lt_of_le h0 h
    rcases lt_or_eq_of_le (binade_mono x y h0 h) with hlt | heq
    · have h1 := fl32_le_top x h0
      have h2 := fl32_ge_bot y hy (lt_of_le_of_lt (binade_ge x) hlt)
      have h3 : (2 : α) ^ (binade x + 1) ≤ (2 : α) ^ binade y :=
        zpow_le_zpow_right₀ (by norm_num) (by omega)
      exact le_trans h1 (le_trans h3 h2)
    · rw [fl32_of_ne x (ne_of_gt h0), fl32_of_ne y (ne_of_gt hy), heq]
      have hu := two_zpow_pos (F := α) (binade y - 23)
      have hq : x / (2 : α) ^ (binade y - 23) ≤ y / (2 : α) ^ (binade y - 23) :=
        div_le_div_of_nonneg_right h (le_of_lt hu)
      have h1 := roundHalfEven_mono _ _ hq
      have h2 : ((roundHalfEven (x / (2 : α) ^ (binade y - 23)) : Int) : α)
          ≤ ((roundHalfEven (y / (2 : α) ^ (binade y - 23)) : Int) : α) := by exact_mod_cast h1
      exact mul_le_mul_of_nonneg_right h2 (le_of_lt hu)

/-- A value `m * 2 ^ k` with `|m| < 2 ^ 24` and `k ≥ -149` is a binary32 value:
rounding leaves it unchanged. -/
theorem fl32_exact (m k : Int) (hm : |m| < 2 ^ 24) (hk : -149 ≤ k) :
    fl32 ((m : α) * (2 : α) ^ k) = (m : α) * (2 : α) ^ k := by
  rcases eq_or_ne m 0 with h0 | h0
  · rw [h0, Int.cast_zero, zero_mul, fl32_zero]
  · have hk2 := two_zpow_pos (F := α) k
    have hx : (m : α) * (2 : α) ^ k ≠ 0 :=
      mul_ne_zero (Int.cast_ne_zero.mpr h0) (ne_of_gt hk2)
    have habs : |(m : α) * (2 : α) ^ k| = ((|m| : Int) : α) * (2 : α) ^ k := by
      rw [abs_mul, abs_of_pos hk2, Int.cast_abs]
    have he : binade ((m : α) * (2 : α) ^ k) - 23 ≤ k := by
      rcases eq_or_lt_of_le (binade_ge ((m : α) * (2 : α) ^ k)) with h1 | h1
      · omega
      · have h2 := zpow_binade_le _ hx h1
        rw [habs] at h2
        have h3 : ((|m| : Int) : α) < (((2 : Int) ^ 24 : Int) : α) := by exact_mod_cast hm
        have h4 : (((2 : Int) ^ 24 : Int) : α) = (2 : α) ^ (24 : Int) := by norm_num
        rw [h4] at h3
        have h5 : (2 : α) ^ binade ((m : α) * (2 : α) ^ k) < (2 : α) ^ (24 + k) := by
          rw [zpow_add₀ (by norm_num : (2 : α) ≠ 0)]
          exact lt_of_le_of_lt h2 (mul_lt_mul_of_pos_right h3 hk2)
        have h6 := (zpow_lt_zpow_iff_right₀ (by norm_num : (1 : α) < 2)).mp h5
        omega
    obtain ⟨n, hn⟩ : ∃ n : Nat, k - (binade ((m : α) * (2 : α) ^ k) - 23) = (n : Int) :=
      Int.eq_ofNat_of_zero_le (by omega)
    rw [fl32_of_ne _ hx]
    have hu := two_zpow_pos (F := α) (binade ((m : α) * (2 : α) ^ k) - 23)
    have hq : (m : α) * (2 : α) ^ k / (2 : α) ^ (binade ((m : α) * (2 : α) ^ k) - 23)
        = ((m * 2 ^ n : Int) : α) := by
      rw [mul_div_assoc, ← zpow_sub₀ (by norm_num : (2 : α) ≠ 0), hn, zpow_natCast]
      push_cast
      ring
    rw [hq, roundHalfEven_intCast]
    have hsplit : (2 : α) ^ k
        = (2 : α) ^ (n : Int) * (2 : α) ^ (binade ((m : α) * (2 : α) ^ k) - 23) := by
      rw [← zpow_add₀ (by norm_num : (2 : α) ≠ 0)]
      congr 1; omega
    conv_rhs => rw [hsplit]
    rw [zpow_natCast]
    push_cast
    ring

/-- An integer below `2 ^ 24` in magnitude is a binary32 value. -/
theorem fl32_intCast (m : Int) (hm : |m| < 2 ^ 24) : fl32 ((m : Int) : α) = (m : α) := by
  have h := fl32_exact (α := α) m 0 hm (by norm_num)
  simpa using h

/-- Rounding error: below `2 ^ (n + 1)` in magnitude the error is at most
`2 ^ (n - 24)`, half a unit in the last place of that binade. -/
theorem fl32_err (x : α) (n : Int) (hn : -126 ≤ n) (hx : |x| < (2 : α) ^ (n + 1)) :
    |fl32 x - x| ≤ (2 : α) ^ (n - 24) := by
  rcases eq_or_ne x 0 with h0 | h0
  · rw [h0, fl32_zero, sub_zero, abs_zero]; exact le_of_lt (two_zpow_pos _)
  · have he := binade_le x n h0 hn hx
    have hu := two_zpow_pos (F := α) (binade x - 23)
    rw [fl32_of_ne x h0]
    have hr := roundHalfEven_err (x / (2 : α) ^ (binade x - 23))
    have hfac : ((roundHalfEven (x / (2 : α) ^ (binade x - 23)) : Int) : α)
          * (2 : α) ^ (binade x - 23) - x
        = (((roundHalfEven (x / (2 : α) ^ (binade x - 23)) : Int) : α)
            - x / (2 : α) ^ (binade x - 23)) * (2 : α) ^ (binade x - 23) := by
      field_simp
    rw [hfac, abs_mul, abs_of_pos hu]
    have h1 : |((roundHalfEven (x / (2 : α) ^ (binade x - 23)) : Int) : α)
          - x / (2 : α) ^ (binade x - 23)| * (2 : α) ^ (binade x - 23)
        ≤ 1 / 2 * (2 : α) ^ (binade x - 23) :=
      mul_le_mul_of_nonneg_right hr (le_of_lt hu)
    have h2 : (1 : α) / 2 * (2 : α) ^ (binade x - 23) = (2 : α) ^ (binade x - 24) := by
      have : (2 : α) ^ (binade x - 23) = (2 : α) ^ (binade x - 24) * 2 := by
        rw [← zpow_add_one₀ (by norm_num : (2 : α) ≠ 0)]
        congr 1; omega
      rw [this]; ring
    rw [h2] at h1
    exact le_trans h1 (zpow_le_zpow_right₀ (by norm_num) (by omega))

end RoundingLemmas

/-! ## Star drawing lemmas -/

section StarDrawLemmas

variable {α : Type} [LinearOrderedField α] [FloorRing α]

/-- The `(int)` cast of a float that is not negative is its floor. -/
theorem truncToInt_of_nonneg (f : α) (h : 0 ≤ f) : truncToInt f = Int.floor f := by
  unfold truncToInt
  rw [if_pos h]

/-- A value strictly within one half of an integer is rounded to it. -/
theorem roundHalfEven_eq (q : α) (n : Int) (h1 : (n : α) - 1 / 2 < q)
    (h2 : q < (n : α) + 1 / 2) : roundHalfEven q = n := by
  have herr := abs_le.mp (roundHalfEven_err q)
  have hlo : ((n - 1 : Int) : α) < ((roundHalfEven q : Int) : α) := by
    push_cast; linarith [herr.1]
  have hhi : ((roundHalfEven q : Int) : α) < ((n + 1 : Int) : α) := by
    push_cast; linarith [herr.2]
  have hlo2 : n - 1 < roundHalfEven q := by exact_mod_cast hlo
  have hhi2 : roundHalfEven q < n + 1 := by exact_mod_cast hhi
  omega

/-- The binade exponent of a value between `2 ^ e` and `2 ^ (e + 1)`. -/
theorem binade_eq (x : α) (e : Int) (he : -126 ≤ e) (h1 : (2 : α) ^ e ≤ |x|)
    (h2 : |x| < (2 : α) ^ (e + 1)) : binade x = e := by
  have hx : x ≠ 0 := by
    intro h
    rw [h, abs_zero] at h1
    exact absurd h1 (not_le.mpr (two_zpow_pos e))
  have hle := binade_le x e hx he h2
  have h3 : ((2 : Nat) : α) ^ e ≤ |x| := by rwa [Nat.cast_ofNat]
  have h4 : e ≤ Int.log 2 |x| := (Int.zpow_le_iff_le_log (by norm_num) (abs_pos.mpr hx)).mp h3
  have h5 : Int.log 2 |x| ≤ binade x := le_max_left _ _
  omega

/-- The values 1 and 3 are binary32 values. -/
theorem fl32_one_three : fl32 (1 : α) = 1 ∧ fl32 (3 : α) = 3 := by
  have h1 := fl32_intCast (α := α) 1 (by norm_num)
  have h3 := fl32_intCast (α := α) 3 (by norm_num)
  exact ⟨by simpa using h1, by simpa using h3⟩

/-- A value in `[1 - 2 ^ (-27), 1]` is rounded to 1: the gap between 1 and the
binary32 value below it is `2 ^ (-24)`. -/
theorem fl32_near_one (y : α) (h0 : 1 - 1 / 134217728 ≤ y) (h1 : y ≤ 1) : fl32 y = 1 := by
  have hx0 : (0 : α) < 1 - 1 / 134217728 := by norm_num
  have hb : binade (1 - 1 / 134217728 : α) = -1 := by
    apply binade_eq _ _ (by norm_num)
    · rw [abs_of_pos hx0]; norm_num
    · rw [abs_of_pos hx0]; norm_num
  have hlow : fl32 (1 - 1 / 134217728 : α) = 1 := by
    rw [fl32_of_ne _ (ne_of_gt hx0), hb]
    have hq : roundHalfEven ((1 - 1 / 134217728 : α) / (2 : α) ^ ((-1 : Int) - 23))
        = 16777216 := by
      apply roundHalfEven_eq <;> norm_num
    rw [hq]
    norm_num
  apply le_antisymm
  · have := fl32_mono y 1 (le_trans (le_of_lt hx0) h0) h1
    rwa [fl32_one_three.1] at this
  · have := fl32_mono _ y (le_of_lt hx0) h0
    rwa [hlow] at this

/-- The clamp `if (size < 1) size = 1` is the maximum with 1. -/
theorem starSize_eq_max (z : α) : starSize z = max 1 (truncToInt (starSizeValue z)) := by
  unfold starSize
  dsimp only
  split_ifs with h
  · exact (max_eq_left (le_of_lt h)).symm
  · exact (max_eq_right (not_lt.mp h)).symm

/-- For a depth in `(0, 200]` the three rounded values stay in range. -/
theorem starSizeValue_bounds (z : α) (h0 : 0 < z) (h1 : z ≤ 200) :
    0 ≤ fl32 (z / 200) ∧ fl32 (z / 200) ≤ 1 ∧
    0 ≤ fl32 (1 - fl32 (z / 200)) ∧ fl32 (1 - fl32 (z / 200)) ≤ 1 ∧
    0 ≤ starSizeValue z ∧ starSizeValue z ≤ 3 := by
  obtain ⟨f1, f3⟩ := fl32_one_three (α := α)
  have ha0 : 0 ≤ z / 200 := le_of_lt (div_pos h0 (by norm_num))
  have ha1 : z / 200 ≤ 1 := (div_le_one (by norm_num)).mpr h1
  have hfa0 := fl32_nonneg _ ha0
  have hfa1 : fl32 (z / 200) ≤ 1 := by
    have := fl32_mono _ _ ha0 ha1
    rwa [f1] at this
  have hb0 : 0 ≤ 1 - fl32 (z / 200) := by linarith
  have hfb0 := fl32_nonneg _ hb0
  have hfb1 : fl32 (1 - fl32 (z / 200)) ≤ 1 := by
    have := fl32_mono (1 - fl32 (z / 200)) 1 hb0 (by linarith)
    rwa [f1] at this
  have hc0 : 0 ≤ fl32 (1 - fl32 (z / 200)) * 3 := by linarith
  refine ⟨hfa0, hfa1, hfb0, hfb1, fl32_nonneg _ hc0, ?_⟩
  have := fl32_mono (fl32 (1 - fl32 (z / 200)) * 3) 3 hc0 (by linarith)
  rwa [f3] at this

/-- For a depth in `(0, 200]` the single-precision value is within `2 ^ (-21)` of
the exact `(1 - z / 200) * 3`. -/
theorem starSizeValue_err (z : α) (h0 : 0 < z) (h1 : z ≤ 200) :
    |starSizeValue z - (1 - z / 200) * 3| ≤ 1 / 2097152 := by
  obtain ⟨hfa0, hfa1, hfb0, hfb1, _, _⟩ := starSizeValue_bounds z h0 h1
  have ha0 : 0 ≤ z / 200 := le_of_lt (div_pos h0 (by norm_num))
  have ha1 : z / 200 ≤ 1 := (div_le_one (by norm_num)).mpr h1
  have e1 : |fl32 (z / 200) - z / 200| ≤ (2 : α) ^ ((0 : Int) - 24) :=
    fl32_err _ 0 (by norm_num) (by rw [abs_of_nonneg ha0]; norm_num; linarith)
  have e2 : |fl32 (1 - fl32 (z / 200)) - (1 - fl32 (z / 200))| ≤ (2 : α) ^ ((0 : Int) - 24) :=
    fl32_err _ 0 (by norm_num)
      (by rw [abs_of_nonneg (by linarith)]; norm_num; linarith)
  have e3 : |starSizeValue z - fl32 (1 - fl32 (z / 200)) * 3| ≤ (2 : α) ^ ((1 : Int) - 24) :=
    fl32_err _ 1 (by norm_num)
      (by rw [abs_of_nonneg (by linarith)]; norm_num; linarith)
  have p24 : (2 : α) ^ ((0 : Int) - 24) = 1 / 16777216 := by norm_num
  have p23 : (2 : α) ^ ((1 : Int) - 24) = 1 / 8388608 := by norm_num
  rw [p24] at e1 e2
  rw [p23] at e3
  rw [abs_le] at e1 e2 e3 ⊢
  constructor <;> linarith [e1.1, e1.2, e2.1, e2.2, e3.1, e3.2]

/-- The single-precision value does not grow with the depth. -/
theorem starSizeValue_anti (z1 z2 : α) (h0 : 0 < z1) (h12 : z1 ≤ z2) (h2 : z2 ≤ 200) :
    starSizeValue z2 ≤ starSizeValue z1 := by
  obtain ⟨_, ha1, hb1, _, _, _⟩ := starSizeValue_bounds z1 h0 (le_trans h12 h2)
  obtain ⟨_, ha2, hb2, _, _, _⟩ := starSizeValue_bounds z2 (lt_of_lt_of_le h0 h12) h2
  have hdiv : z1 / 200 ≤ z2 / 200 := div_le_div_of_nonneg_right h12 (by norm_num)
  have hfa := fl32_mono _ _ (le_of_lt (div_pos h0 (by norm_num))) hdiv
  have hfb := fl32_mono (1 - fl32 (z2 / 200)) (1 - fl32 (z1 / 200)) (by linarith) (by linarith)
  exact fl32_mono _ _ (by linarith) (by linarith)

/-- From the depth `1 / 10000` on, the single-precision value stays below 3. -/
theorem starSizeValue_lt_three (z : α) (h0 : 1 / 10000 ≤ z) (h1 : z ≤ 200) :
    starSizeValue z < 3 := by
  have hpos : 0 < z := lt_of_lt_of_le (by norm_num) h0
  obtain ⟨hfa0, hfa1, hfb0, hfb1, _, _⟩ := starSizeValue_bounds z hpos h1
  have x1 : fl32 ((1 : α) / 2097152) = 1 / 2097152 := by
    have := fl32_exact (α := α) 1 (-21) (by norm_num) (by norm_num)
    norm_num at this ⊢
    exact this
  have x2 : fl32 ((2097151 : α) / 2097152) = 2097151 / 2097152 := by
    have := fl32_exact (α := α) 2097151 (-21) (by norm_num) (by norm_num)
    norm_num at this ⊢
    exact this
  have x3 : fl32 ((6291453 : α) / 2097152) = 6291453 / 2097152 := by
    have := fl32_exact (α := α) 6291453 (-21) (by norm_num) (by norm_num)
    norm_num at this ⊢
    exact this
  have ha : (1 : α) / 2097152 ≤ z / 200 := by
    rw [le_div_iff₀ (by norm_num : (0 : α) < 200)]
    linarith
  have hfa : (1 : α) / 2097152 ≤ fl32 (z / 200) := by
    have := fl32_mono _ _ (by norm_num) ha
    rwa [x1] at this
  have hfb : fl32 (1 - fl32 (z / 200)) ≤ 2097151 / 2097152 := by
    have := fl32_mono (1 - fl32 (z / 200)) (2097151 / 2097152) (by linarith) (by linarith)
    rwa [x2] at this
  have hv : starSizeValue z ≤ 6291453 / 2097152 := by
    have := fl32_mono (fl32 (1 - fl32 (z / 200)) * 3) (6291453 / 2097152) (by linarith)
      (by linarith)
    rwa [x3] at this
  exact lt_of_le_of_lt hv (by norm_num)

/-- Up to the depth `1 / 1000000` the subtraction `1.0f - z / 200.0f` rounds to 1
and the single-precision value is 3. -/
theorem starSizeValue_tiny (z : α) (h0 : 0 < z) (h1 : z ≤ 1 / 1000000) :
    starSizeValue z = 3 := by
  obtain ⟨f1, f3⟩ := fl32_one_three (α := α)
  have x1 : fl32 ((1 : α) / 134217728) = 1 / 134217728 := by
    have := fl32_exact (α := α) 1 (-27) (by norm_num) (by norm_num)
    norm_num at this ⊢
    exact this
  have ha0 : 0 ≤ z / 200 := le_of_lt (div_pos h0 (by norm_num))
  have ha : z / 200 ≤ 1 / 134217728 := by
    rw [div_le_iff₀ (by norm_num : (0 : α) < 200)]
    linarith
  have hfa0 := fl32_nonneg _ ha0
  have hfa : fl32 (z / 200) ≤ 1 / 134217728 := by
    have := fl32_mono _ _ ha0 ha
    rwa [x1] at this
  have hfb : fl32 (1 - fl32 (z / 200)) = 1 := fl32_near_one _ (by linarith) (by linarith)
  unfold starSizeValue
  rw [hfb, one_mul, f3]

/-- For a depth in `(0, 200]` the size is the clamped floor of a value in
`[0, 3]`. -/
theorem starSize_floor (z : α) (h0 : 0 < z) (h1 : z ≤ 200) :
    starSize z = max 1 (Int.floor (starSizeValue z)) ∧
    0 ≤ Int.floor (starSizeValue z) ∧ Int.floor (starSizeValue z) ≤ 3 := by
  obtain ⟨_, _, _, _, hv0, hv3⟩ := starSizeValue_bounds z h0 h1
  refine ⟨?_, Int.floor_nonneg.mpr hv0, ?_⟩
  · rw [starSize_eq_max, truncToInt_of_nonneg _ hv0]
  · have : Int.floor (starSizeValue z) ≤ Int.floor ((3 : Int) : α) :=
      Int.floor_le_floor (by push_cast; exact hv3)
    rwa [Int.floor_intCast] at this

/-- Away from the steps at 2 and 3 the size is the one of the exact value:
`max(1, trunc((1 - z / 200) * 3))`. -/
theorem starSize_eq_exact (z : α) (h0 : 0 < z) (h1 : z ≤ 200)
    (hw : (1 - z / 200) * 3 ≤ 2 - 1 / 1048576 ∨
      (2 + 1 / 1048576 ≤ (1 - z / 200) * 3 ∧ (1 - z / 200) * 3 ≤ 3 - 1 / 1048576)) :
    starSize z = max 1 (truncToInt ((1 - z / 200) * 3)) := by
  obtain ⟨hs, hf0, _⟩ := starSize_floor z h0 h1
  have herr := abs_le.mp (starSizeValue_err z h0 h1)
  have hq1 : z / 200 ≤ 1 := (div_le_one (by norm_num)).mpr h1
  have hw0 : 0 ≤ (1 - z / 200) * 3 := by linarith
  rw [hs, truncToInt_of_nonneg _ hw0]
  have hwf0 : 0 ≤ Int.floor ((1 - z / 200) * 3) := Int.floor_nonneg.mpr hw0
  rcases hw with hw | ⟨hw2, hw3⟩
  · have hv : Int.floor (starSizeValue z) < 2 :=
      Int.floor_lt.mpr (by push_cast; linarith [herr.2])
    have hwl : Int.floor ((1 - z / 200) * 3) < 2 :=
      Int.floor_lt.mpr (by push_cast; linarith)
    omega
  · have hv2 : 2 ≤ Int.floor (starSizeValue z) :=
      Int.le_floor.mpr (by push_cast; linarith [herr.1])
    have hv3 : Int.floor (starSizeValue z) < 3 :=
      Int.floor_lt.mpr (by push_cast; linarith [herr.2])
    have hwl2 : 2 ≤ Int.floor ((1 - z / 200) * 3) :=
      Int.le_floor.mpr (by push_cast; linarith)
    have hwl3 : Int.floor ((1 - z / 200) * 3) < 3 :=
      Int.floor_lt.mpr (by push_cast; linarith)
    omega

/-- The loop body of `DrawStars` sets the star's colour and appends the star's
rectangle. -/
theorem drawStar_eq (rend : Renderer) (s : Star α) :
    drawStar rend s = { drawColor := ⟨s.r, s.g, s.b, 255⟩, cmds := rend.cmds ++ [starRect s] } :=
  rfl

/-- Function `DrawStars` appends one rectangle per star, in index order. -/
theorem DrawStars_cmds (rend : Renderer) (stars : List (Star α)) :
    (DrawStars rend stars).cmds = rend.cmds ++ stars.map starRect := by
  unfold DrawStars
  induction stars generalizing rend with
  | nil => simp
  | cons s rest ih =>
    rw [List.foldl_cons, ih, drawStar_eq, List.map_cons]
    simp

end StarDrawLemmas

/-! ## Pool lemmas -/

section PoolLemmas

variable {α : Type} [LinearOrderedField α]

/-- A property of every star `initStar` builds from non-negative `rand()` values
holds for every star of the pool the loop of `InitStars` builds. -/
theorem initStarsLoop_forall (P : Star α → Prop)
    (hP : ∀ g : Rand, (∀ k, 0 ≤ g k) → P (initStar g).1) (n : Nat) (g : Rand)
    (hg : ∀ k, 0 ≤ g k) : ∀ s ∈ (initStarsLoop (α := α) n g).1, P s := by
  induction n generalizing g with
  | zero => intro s hmem; simp [initStarsLoop] at hmem
  | succ n ih =>
    intro s hmem
    simp only [initStarsLoop, List.mem_cons] at hmem
    rcases hmem with h | h
    · rw [h]; exact hP g hg
    · exact ih (initStar (α := α) g).2 (fun k => hg _) s h

/-- Star `i` after `UpdateStars` is the loop body applied to star `i` before. -/
theorem UpdateStars_getElem (stars : List (Star α)) (dt : α) (g : Rand) (i : Nat)
    (s : Star α) (hs : stars[i]? = some s) :
    ∃ g1 : Rand, (UpdateStars stars dt g).1[i]? = some (updateStar s dt g1).1 := by
  induction stars generalizing g i with
  | nil => simp at hs
  | cons s0 rest ih =>
    cases i with
    | zero =>
      simp only [List.getElem?_cons_zero, Option.some.injEq] at hs
      subst hs
      exact ⟨g, by simp [UpdateStars]⟩
    | succ j =>
      simp only [List.getElem?_cons_succ] at hs
      obtain ⟨g1, h1⟩ := ih (updateStar s0 dt g).2 j hs
      exact ⟨g1, by simpa [UpdateStars] using h1⟩

end PoolLemmas

/-! ## Frame command lemmas -/

/-- A monadic fold whose step succeeds on every entry of the list and appends
`col b` to the commands succeeds and appends the columns in list order. -/
theorem foldlM_cmds {β : Type} (f : Renderer → β → Option Renderer) (col : β → List DrawCmd)
    (l : List β) (h : ∀ r, ∀ b ∈ l, ∃ t, f r b = some t ∧ t.cmds = r.cmds ++ col b)
    (r : Renderer) : ∃ out, l.foldlM f r = some out ∧ out.cmds = r.cmds ++ l.flatMap col := by
  induction l generalizing r with
  | nil => exact ⟨r, rfl, by simp⟩
  | cons b rest ih =>
    obtain ⟨t, ht, hc⟩ := h r b (List.mem_cons_self _ _)
    obtain ⟨out, ho, hoc⟩ := ih (fun u c hm => h u c (List.mem_cons_of_mem _ hm)) t
    refine ⟨out, ?_, ?_⟩
    · rw [List.foldlM_cons, ht]; exact ho
    · rw [hoc, hc, List.flatMap_cons, List.append_assoc]

/-- A 32-bit signed value is unchanged by the conversion to `int`. -/
theorem toInt32_of_range (n : Int) (h0 : -2147483648 ≤ n) (h1 : n < 2147483648) :
    toInt32 n = n := by
  unfold toInt32
  omega

section FrameCmdLemmas

variable {α : Type} [LinearOrderedField α] [FloorRing α]

/-- The `(int)` cast of a float with an integer value is that integer. -/
theorem truncToInt_intCast (n : Int) : truncToInt ((n : Int) : α) = n := by
  unfold truncToInt
  split_ifs
  · exact Int.floor_intCast n
  · exact Int.ceil_intCast n

/-- The value `GetSine` returns is an entry of the table. -/
theorem GetSine_mem {β : Type} (sineTable : List β) (angle : Int) (v : β)
    (h : GetSine sineTable angle = some v) : v ∈ sineTable := by
  rw [GetSine_eq_getElem] at h
  exact List.getElem?_mem h

/-- The column of a position whose centre and channels are known. -/
theorem waveColumn_eq (sineTable : List α) (time_ms : Nat) (x y : Int) (r g b : Nat)
    (hy : waveY sineTable time_ms x = some y)
    (hr : waveChannel sineTable time_ms 10 x = some r)
    (hg : waveChannel sineTable time_ms 15 x = some g)
    (hb : waveChannel sineTable time_ms 20 x = some b) :
    waveColumn sineTable time_ms x =
      [DrawCmd.point x (y - 1) ⟨r, g, b, 255⟩, DrawCmd.point x y ⟨r, g, b, 255⟩,
       DrawCmd.point x (y + 1) ⟨r, g, b, 255⟩] := by
  unfold waveColumn
  rw [hy, hr, hg, hb]

/-- With a table of 360 entries `DrawSineWave` returns and appends the columns
of `x = 0 .. 639` in order: 1920 commands. -/
theorem DrawSineWave_cmds (rend : Renderer) (sineTable : List α) (time_ms : Nat)
    (hlen : sineTable.length = 360) :
    (∃ out, DrawSineWave rend sineTable time_ms = some out ∧
      out.cmds = rend.cmds ++
        (List.range 640).flatMap (fun k : Nat => waveColumn sineTable time_ms (k : Int))) ∧
    ((List.range 640).flatMap
      (fun k : Nat => waveColumn sineTable time_ms (k : Int))).length = 1920 := by
  have hcol : ∀ x : Int, ∃ (y : Int) (c : Color), waveColumn sineTable time_ms x
      = [DrawCmd.point x (y - 1) c, DrawCmd.point x y c, DrawCmd.point x (y + 1) c] ∧
      ∀ r, waveStep sineTable time_ms r x = some
        { drawColor := c, cmds := r.cmds ++ waveColumn sineTable time_ms x } := by
    intro x
    obtain ⟨y, hy⟩ := waveY_isSome sineTable hlen time_ms x
    obtain ⟨cr, hr⟩ := waveChannel_isSome sineTable hlen time_ms 10 x
    obtain ⟨cg, hg⟩ := waveChannel_isSome sineTable hlen time_ms 15 x
    obtain ⟨cb, hb⟩ := waveChannel_isSome sineTable hlen time_ms 20 x
    have hc := waveColumn_eq sineTable time_ms x y cr cg cb hy hr hg hb
    refine ⟨y, ⟨cr, cg, cb, 255⟩, hc, fun r => ?_⟩
    rw [hc]
    exact waveStep_eq sineTable time_ms r x y cr cg cb hy hr hg hb
  constructor
  · obtain ⟨out, ho, hc⟩ := foldlM_cmds (waveStep sineTable time_ms)
      (waveColumn sineTable time_ms) (intRange 0 (WINDOW_WIDTH - 1))
      (fun r x _ => by
        obtain ⟨y, c, _, hstep⟩ := hcol x
        exact ⟨_, hstep r, rfl⟩) rend
    refine ⟨out, ho, ?_⟩
    have hrange : intRange 0 (WINDOW_WIDTH - 1)
        = (List.range 640).map fun k : Nat => (k : Int) := intRange_zero 640
    rw [hc, hrange, List.flatMap_map]
  · rw [flatMap_length_const (fun k : Nat => waveColumn sineTable time_ms (k : Int)) 3
      (fun k => by
        obtain ⟨y, c, hc, _⟩ := hcol (k : Int)
        show (waveColumn sineTable time_ms (k : Int)).length = 3
        rw [hc]; rfl), List.length_range]

/-- The line of an edge of the edge table. -/
theorem cubeLine_eq (cosA sinA : α) (e : Int × Int) (p0 p1 : α × α × α)
    (h0 : readAt vertices e.1 = some p0) (h1 : readAt vertices e.2 = some p1) :
    cubeLine cosA sinA e = [DrawCmd.line
      (project (rotX p0.1 p0.2.2 cosA sinA) (rotZ p0.1 p0.2.2 cosA sinA)
        (Int.tdiv WINDOW_WIDTH 2))
      (project p0.2.1 (rotZ p0.1 p0.2.2 cosA sinA) (Int.tdiv WINDOW_HEIGHT 2))
      (project (rotX p1.1 p1.2.2 cosA sinA) (rotZ p1.1 p1.2.2 cosA sinA)
        (Int.tdiv WINDOW_WIDTH 2))
      (project p1.2.1 (rotZ p1.1 p1.2.2 cosA sinA) (Int.tdiv WINDOW_HEIGHT 2))
      ⟨255, 255, 255, 255⟩] := by
  unfold cubeLine vertexScreen
  rw [h0, h1]
  rfl

/-- Function `Draw3DCube` returns and appends the lines of the edge table in
table order: 12 commands. -/
theorem Draw3DCube_cmds (cosf sinf : α → α) (rend : Renderer) (time_ms : Nat) :
    (∃ out, Draw3DCube cosf sinf rend time_ms = some out ∧
      out.cmds = rend.cmds ++ edges.flatMap
        (cubeLine (cosf ((time_ms : α) / 1000)) (sinf ((time_ms : α) / 1000)))) ∧
    (edges.flatMap
      (cubeLine (cosf ((time_ms : α) / 1000)) (sinf ((time_ms : α) / 1000)))).length = 12 := by
  constructor
  · obtain ⟨out, ho, hc⟩ := foldlM_cmds
      (cubeStep (cosf ((time_ms : α) / 1000)) (sinf ((time_ms : α) / 1000)))
      (fun i : Int => match readAt edges i with
        | some e => cubeLine (cosf ((time_ms : α) / 1000)) (sinf ((time_ms : α) / 1000)) e
        | none => [])
      (intRange 0 (12 - 1))
      (fun r i hi => by
        obtain ⟨e, he, hmem⟩ := edges_read i hi
        obtain ⟨p0, p1, h0, h1⟩ := vertices_read (F := α) e hmem
        refine ⟨_, cubeStep_eq _ _ r i e p0 p1 he h0 h1, ?_⟩
        simp only [he, cubeLine_eq _ _ e p0 p1 h0 h1]) rend
    refine ⟨out, ho, ?_⟩
    rw [hc, cube_loop_range]
    rfl
  · rfl

end FrameCmdLemmas

/-! ## Projection lemmas -/

section ProjectionLemmas

variable {α : Type} [LinearOrderedField α] [FloorRing α]

/-- A projection whose value before the `(int)` cast is an integer. -/
theorem project_intCast (c rz : α) (half n : Int)
    (h : c / (rz + 200) * 300 + (half : α) = (n : α)) : project c rz half = n := by
  unfold project
  rw [h, truncToInt_intCast]

/-- At every vertex of the table the unrotated projection has integer values. -/
theorem vertices_project_int {F : Type} [LinearOrderedField F] (p : F × F × F)
    (hp : p ∈ (vertices : List (F × F × F))) :
    ∃ nx ny : Int, p.1 / (p.2.2 + 200) * 300 + ((320 : Int) : F) = (nx : F) ∧
      p.2.1 / (p.2.2 + 200) * 300 + ((240 : Int) : F) = (ny : F) := by
  simp only [vertices, List.mem_cons, List.mem_singleton, List.not_mem_nil, or_false] at hp
  rcases hp with h | h | h | h | h | h | h | h <;> subst h
  · exact ⟨220, 140, by norm_num, by norm_num⟩
  · exact ⟨420, 140, by norm_num, by norm_num⟩
  · exact ⟨420, 340, by norm_num, by norm_num⟩
  · exact ⟨220, 340, by norm_num, by norm_num⟩
  · exact ⟨260, 180, by norm_num, by norm_num⟩
  · exact ⟨380, 180, by norm_num, by norm_num⟩
  · exact ⟨380, 300, by norm_num, by norm_num⟩
  · exact ⟨260, 300, by norm_num, by norm_num⟩

end ProjectionLemmas

/-! ## Frame sequence lemmas -/

section FrameSequenceLemmas

variable {α : Type} [LinearOrderedField α] [FloorRing α]

/-- A sequence of `UpdateStars` calls keeps the number of stars. -/
theorem runUpdates_length {F : Type} [LinearOrderedField F] (st : List (Star F) × Rand)
    (dts : List F) : (runUpdates st dts).1.length = st.1.length := by
  induction dts generalizing st with
  | nil => rfl
  | cons dt rest ih => rw [runUpdates, ih, UpdateStars_length]

/-- With a table of 360 entries the frame of one renderer appends the commands
of `frameCmds` for the stars `UpdateStars dt` returns. -/
theorem drawFrame_cmds (cosf sinf : α → α) (dt : α) (now : Nat) (s : Globals α)
    (rend : Renderer) (hlen : s.sineTable.length = 360) :
    ∃ out, drawFrame cosf sinf dt now s rend = some out ∧
      out.2.cmds = rend.cmds
        ++ frameCmds cosf sinf s.sineTable (UpdateStars s.stars dt s.rng).1 now ∧
      out.1.stars = (UpdateStars s.stars dt s.rng).1 ∧
      out.1.rng = (UpdateStars s.stars dt s.rng).2 ∧
      out.1.sineTable = s.sineTable ∧ out.1.last_ticks = s.last_ticks := by
  obtain ⟨⟨w, hw, hwc⟩, _⟩ := DrawSineWave_cmds
    (DrawStars (SDL_RenderClear (SDL_SetRenderDrawColor rend 0 0 0 255))
      (UpdateStars s.stars dt s.rng).1) s.sineTable now hlen
  obtain ⟨⟨c, hc, hcc⟩, _⟩ := Draw3DCube_cmds cosf sinf w now
  refine ⟨({ s with stars := (UpdateStars s.stars dt s.rng).1,
                    rng := (UpdateStars s.stars dt s.rng).2 }, SDL_RenderPresent c),
    ?_, ?_, rfl, rfl, rfl, rfl⟩
  · unfold drawFrame
    simp only [hw, hc, Option.bind_eq_bind, Option.some_bind]
    rfl
  · show c.cmds ++ [DrawCmd.present] = _
    rw [hcc, hwc, DrawStars_cmds]
    unfold frameCmds
    simp [SDL_RenderClear, SDL_SetRenderDrawColor]

/-- The window loop, renderer by renderer: a null renderer stays null, and the
renderer at position `i` that is not null receives the commands of `frameCmds`
for the stars after one `UpdateStars dt` more than the number of renderers
before it that are not null. The stars the loop leaves are those after one
`UpdateStars dt` per renderer that is not null. -/
theorem loopWindows_frames (cosf sinf : α → α) (dt : α) (now : Nat) (s : Globals α)
    (renderers : List (Option Renderer)) (hlen : s.sineTable.length = 360) :
    ∃ out, loopWindows cosf sinf dt now s renderers = some out ∧
      out.2.length = renderers.length ∧
      (out.1.stars, out.1.rng) = runUpdates (s.stars, s.rng)
        (List.replicate (renderers.countP Option.isSome) dt) ∧
      out.1.sineTable = s.sineTable ∧ out.1.last_ticks = s.last_ticks ∧
      ∀ i, (renderers[i]? = some none → out.2[i]? = some none) ∧
        ∀ rend, renderers[i]? = some (some rend) → ∃ r1, out.2[i]? = some (some r1) ∧
          r1.cmds = rend.cmds ++ frameCmds cosf sinf s.sineTable
            (runUpdates (s.stars, s.rng)
              (List.replicate ((renderers.take i).countP Option.isSome + 1) dt)).1 now := by
  induction renderers generalizing s with
  | nil =>
    refine ⟨(s, []), rfl, rfl, rfl, rfl, rfl, fun i => ⟨?_, ?_⟩⟩
    · intro h; simp at h
    · intro rend h; simp at h
  | cons r rest ih =>
    cases r with
    | none =>
      obtain ⟨out, ho, hl, hst, htab, htk, hall⟩ := ih s hlen
      refine ⟨(out.1, none :: out.2), ?_, by simp [hl], ?_, htab, htk, fun i => ?_⟩
      · simp only [loopWindows, ho, Option.bind_eq_bind, Option.some_bind]
        rfl
      · simpa [List.countP_cons] using hst
      · cases i with
        | zero =>
          refine ⟨fun _ => by simp, fun rend h => ?_⟩
          simp at h
        | succ j =>
          obtain ⟨h1, h2⟩ := hall j
          refine ⟨fun h => ?_, fun rend h => ?_⟩
          · simpa using h1 (by simpa using h)
          · obtain ⟨r1, hr1, hc1⟩ := h2 rend (by simpa using h)
            refine ⟨r1, by simpa using hr1, ?_⟩
            rw [hc1]
            simp [List.countP_cons]
    | some rend0 =>
      obtain ⟨f, hf, hfc, hfs, hfr, hft, hfl⟩ := drawFrame_cmds cosf sinf dt now s rend0 hlen
      obtain ⟨out, ho, hl, hst, htab, htk, hall⟩ := ih f.1 (by rw [hft]; exact hlen)
      have hrun : ∀ k, runUpdates (s.stars, s.rng) (List.replicate (k + 1) dt)
          = runUpdates (f.1.stars, f.1.rng) (List.replicate k dt) := by
        intro k
        rw [List.replicate_succ, runUpdates, hfs, hfr]
      refine ⟨(out.1, some f.2 :: out.2), ?_, by simp [hl], ?_, by rw [htab, hft],
        by rw [htk, hfl], fun i => ?_⟩
      · simp only [loopWindows, hf, ho, Option.bind_eq_bind, Option.some_bind]
        rfl
      · rw [hst, List.countP_cons]
        simp only [Option.isSome_some, if_true]
        exact (hrun _).symm
      · cases i with
        | zero =>
          refine ⟨fun h => ?_, fun rend h => ?_⟩
          · simp at h
          · simp only [List.getElem?_cons_zero, Option.some.injEq] at h
            subst h
            refine ⟨f.2, by simp, ?_⟩
            rw [hfc]
            rfl
        | succ j =>
          obtain ⟨h1, h2⟩ := hall j
          refine ⟨fun h => ?_, fun rend h => ?_⟩
          · simpa using h1 (by simpa using h)
          · obtain ⟨r1, hr1, hc1⟩ := h2 rend (by simpa using h)
            refine ⟨r1, by simpa using hr1, ?_⟩
            rw [hc1, hft, List.take_succ_cons, List.countP_cons]
            simp only [Option.isSome_some, if_true]
            rw [hrun]

end FrameSequenceLemmas

/-! ## Star size lemmas -/

section StarSizeLemmas

variable {α : Type} [LinearOrderedField α] [FloorRing α]

/-- A star on the axis of view is projected to the centre `(320, 240)`: every
rounded operation is exact there. -/
theorem starScreen_centre (s : Star α) (hx : s.x = 0) (hy : s.y = 0) :
    starScreen s = (320, 240) := by
  have hw : Int.tdiv WINDOW_WIDTH 2 = 320 := by decide
  have hh : Int.tdiv WINDOW_HEIGHT 2 = 240 := by decide
  unfold starScreen
  rw [hx, hy, hw, hh, zero_div, fl32_zero, zero_mul, fl32_zero, zero_add, zero_add,
    fl32_intCast 320 (by norm_num), fl32_intCast 240 (by norm_num), truncToInt_intCast,
    truncToInt_intCast]

/-- Up to the depth `1 / 1000000` the size is 3. -/
theorem starSize_tiny (z : α) (h0 : 0 < z) (h1 : z ≤ 1 / 1000000) : starSize z = 3 := by
  rw [starSize_eq_max, starSizeValue_tiny z h0 h1]
  have : truncToInt (3 : α) = 3 := by
    have := truncToInt_intCast (α := α) 3
    simpa using this
  rw [this]
  rfl

end StarSizeLemmas

/-! ## Sine table lemmas -/

/-- C3: for every table content and every integer angle `a` (so for every
32-bit angle for which `a + 360` and `a - 360` are representable, negative ones
included) `GetSine a`, `GetSine (a + 360)` and `GetSine (a - 360)` agree. -/
theorem GetSine_periodic {β : Type} (sineTable : List β) (a : Int) :
    GetSine sineTable a = GetSine sineTable (a + 360) ∧
    GetSine sineTable a = GetSine sineTable (a - 360) := by
  simp only [GetSine, sineIndex_eq_emod]
  have h1 : (a + 360) % 360 = a % 360 := by omega
  have h2 : (a - 360) % 360 = a % 360 := by omega
  rw [h1, h2]
  exact ⟨rfl, rfl⟩

/-- C4: for every integer angle (so for every 32-bit signed angle, negative
values and `INT_MIN` included) the index `GetSine` reads lies in `[0, 360)` and is
the non-negative remainder of the angle modulo 360, so with a table of 360
entries the read is inside the table and returns that entry. -/
theorem GetSine_total {β : Type} (sineTable : List β) (angle : Int)
    (hlen : sineTable.length = 360) :
    0 ≤ sineIndex angle ∧ sineIndex angle < 360 ∧ sineIndex angle = angle % 360 ∧
    ∃ v, GetSine sineTable angle = some v ∧ sineTable[(angle % 360).toNat]? = some v := by
  have hidx := sineIndex_eq_emod angle
  have h0 : 0 ≤ angle % 360 := Int.emod_nonneg angle (by decide)
  have h1 : angle % 360 < 360 := Int.emod_lt_of_pos angle (by decide)
  refine ⟨by omega, by omega, hidx, ?_⟩
  have hb : (angle % 360).toNat < sineTable.length := by omega
  refine ⟨sineTable[(angle % 360).toNat], ?_, List.getElem?_eq_getElem hb⟩
  rw [GetSine_eq_getElem, List.getElem?_eq_getElem hb]

/-- Witness of C4 at `INT_MIN` on the table of 360 zeros. -/
theorem GetSine_total_witness :
    (List.replicate 360 (0 : Int)).length = 360 ∧
    (0 ≤ sineIndex INT_MIN ∧ sineIndex INT_MIN < 360 ∧ sineIndex INT_MIN = INT_MIN % 360 ∧
     ∃ v, GetSine (List.replicate 360 (0 : Int)) INT_MIN = some v ∧
       (List.replicate 360 (0 : Int))[(INT_MIN % 360).toNat]? = some v) :=
  ⟨List.length_replicate _ _,
   GetSine_total (List.replicate 360 (0 : Int)) INT_MIN (List.length_replicate _ _)⟩

section StarClaims

variable {α : Type} [LinearOrderedField α]

/-- C1: starting from the pool `InitStars` builds from non-negative `rand()`
values, after every finite sequence of `UpdateStars` calls with deltas that are
not negative the pool still has 200 stars and each has `0 < z ≤ 200`, so the
divisor `z` in `DrawStars` is never zero. -/
theorem star_depth_invariant (g : Rand) (dts : List α) (hg : ∀ n, 0 ≤ g n)
    (hdt : ∀ dt ∈ dts, 0 ≤ dt) :
    (runUpdates (InitStars (α := α) g) dts).1.length = 200 ∧
    ∀ s ∈ (runUpdates (InitStars (α := α) g) dts).1, 0 < s.z ∧ s.z ≤ 200 ∧ s.z ≠ 0 := by
  obtain ⟨hl, hall⟩ := initStarsLoop_spec (α := α) NUM_STARS g hg
  have hinit : ∀ s ∈ (InitStars (α := α) g).1, 0 < s.z ∧ s.z ≤ 200 := fun s hmem =>
    ⟨lt_of_lt_of_le one_pos (hall s hmem).1, (hall s hmem).2⟩
  obtain ⟨hlen, hdepth⟩ := runUpdates_depth (InitStars (α := α) g) dts hdt hinit
  refine ⟨by rw [hlen]; exact hl, fun s hmem => ?_⟩
  obtain ⟨hpos, hle⟩ := hdepth s hmem
  exact ⟨hpos, hle, ne_of_gt hpos⟩

/-- Witness of C1 over the rationals: the generator returning `0, 1, 2, ..` and
the deltas `1, 0, 150`. -/
theorem star_depth_invariant_witness :
    (∀ n : Nat, (0 : Int) ≤ (fun k : Nat => (k : Int)) n) ∧
    (∀ dt ∈ [(1 : ℚ), 0, 150], 0 ≤ dt) ∧
    ((runUpdates (InitStars (α := ℚ) (fun k : Nat => (k : Int))) [1, 0, 150]).1.length = 200 ∧
     ∀ s ∈ (runUpdates (InitStars (α := ℚ) (fun k : Nat => (k : Int))) [1, 0, 150]).1,
       0 < s.z ∧ s.z ≤ 200 ∧ s.z ≠ 0) :=
  ⟨fun n => Int.ofNat_nonneg n, by norm_num,
   star_depth_invariant (fun k : Nat => (k : Int)) [(1 : ℚ), 0, 150]
     (fun n => Int.ofNat_nonneg n) (by norm_num)⟩

/-- C2: if star `i` has `z - 2 * dt ≤ 0`, then after `UpdateStars dt` star `i` has
`z = 200`, `x` in `[-320, 320)` and `y` in `[-240, 240)`, whatever non-negative
values `rand()` returns. -/
theorem respawn_postcondition (stars : List (Star α)) (dt : α) (g : Rand) (i : Nat)
    (s : Star α) (hg : ∀ n, 0 ≤ g n) (hs : stars[i]? = some s) (hz : s.z - 2 * dt ≤ 0) :
    ∃ t, (UpdateStars stars dt g).1[i]? = some t ∧ t.z = 200 ∧
      -320 ≤ t.x ∧ t.x < 320 ∧ -240 ≤ t.y ∧ t.y < 240 := by
  induction stars generalizing g i with
  | nil => simp at hs
  | cons s0 rest ih =>
    cases i with
    | zero =>
      simp only [List.getElem?_cons_zero, Option.some.injEq] at hs
      subst hs
      refine ⟨(updateStar s0 dt g).1, by simp [UpdateStars], ?_⟩
      rw [updateStar_respawn s0 dt g hz]
      obtain ⟨hx0, hx1⟩ := respawn_x_range (g 0) (hg 0)
      obtain ⟨hy0, hy1⟩ := respawn_y_range (g 1) (hg 1)
      refine ⟨rfl, ?_, ?_, ?_, ?_⟩ <;> dsimp only
      · exact_mod_cast hx0
      · exact_mod_cast hx1
      · exact_mod_cast hy0
      · exact_mod_cast hy1
    | succ j =>
      simp only [List.getElem?_cons_succ] at hs
      obtain ⟨k, hk⟩ := updateStar_rng s0 dt g
      have hg2 : ∀ n, 0 ≤ (updateStar s0 dt g).2 n := by
        intro n; rw [hk]; exact hg _
      obtain ⟨t, ht, hrest⟩ := ih (updateStar s0 dt g).2 j hg2 hs
      exact ⟨t, by simpa [UpdateStars] using ht, hrest⟩

/-- Witness of C2 over the rationals: a pool of two stars, the second at depth 1
with `dt = 1`, the generator returning `1000, 1001, ..`. -/
theorem respawn_postcondition_witness :
    (∀ n : Nat, (0 : Int) ≤ (fun k : Nat => (k : Int) + 1000) n) ∧
    ([(⟨0, 0, 50, 1, 2, 3⟩ : Star ℚ), ⟨5, 6, 1, 7, 8, 9⟩][1]? = some ⟨5, 6, 1, 7, 8, 9⟩) ∧
    ((⟨5, 6, 1, 7, 8, 9⟩ : Star ℚ).z - 2 * 1 ≤ 0) ∧
    ∃ t : Star ℚ, (UpdateStars [(⟨0, 0, 50, 1, 2, 3⟩ : Star ℚ), ⟨5, 6, 1, 7, 8, 9⟩] 1
        (fun k : Nat => (k : Int) + 1000)).1[1]? = some t ∧ t.z = 200 ∧
      -320 ≤ t.x ∧ t.x < 320 ∧ -240 ≤ t.y ∧ t.y < 240 :=
  ⟨fun n => by positivity, rfl, by norm_num,
   respawn_postcondition [(⟨0, 0, 50, 1, 2, 3⟩ : Star ℚ), ⟨5, 6, 1, 7, 8, 9⟩] 1
     (fun k : Nat => (k : Int) + 1000) 1 ⟨5, 6, 1, 7, 8, 9⟩ (fun n => by positivity) rfl
     (by norm_num)⟩

end StarClaims

/-! ## Claims on the sine wave -/

section WaveClaims

variable {α : Type} [LinearOrderedField α] [FloorRing α]

/-- C6: for every `time_ms` and every content of the 360-entry table,
`DrawSineWave` appends exactly 640 * 3 = 1920 point commands: for
`x = 0, 1, .., 639` in this order the three points `(x, y - 1)`, `(x, y)`,
`(x, y + 1)` with `y` the centre of column `x`, all three in the colour of
column `x` (its three channels and alpha 255). -/
theorem DrawSineWave_columns (rend : Renderer) (sineTable : List α) (time_ms : Nat)
    (hlen : sineTable.length = 360) :
    ∃ (ys : Int → Int) (cs : Int → Color),
      (∀ x, waveY sineTable time_ms x = some (ys x) ∧
        waveChannel sineTable time_ms 10 x = some (cs x).r ∧
        waveChannel sineTable time_ms 15 x = some (cs x).g ∧
        waveChannel sineTable time_ms 20 x = some (cs x).b ∧ (cs x).a = 255) ∧
      ∃ out, DrawSineWave rend sineTable time_ms = some out ∧
        out.cmds = rend.cmds ++ (List.range 640).flatMap (fun k : Nat =>
          [DrawCmd.point k (ys k - 1) (cs k), DrawCmd.point k (ys k) (cs k),
           DrawCmd.point k (ys k + 1) (cs k)]) ∧
        out.cmds.length = rend.cmds.length + 1920 := by
  have hy := waveY_isSome sineTable hlen time_ms
  have hc := waveChannel_isSome sineTable hlen time_ms
  let ys : Int → Int := fun x => (waveY sineTable time_ms x).getD 0
  let cs : Int → Color := fun x =>
    ⟨(waveChannel sineTable time_ms 10 x).getD 0, (waveChannel sineTable time_ms 15 x).getD 0,
     (waveChannel sineTable time_ms 20 x).getD 0, 255⟩
  have hys : ∀ x, waveY sineTable time_ms x = some (ys x) := by
    intro x; obtain ⟨y, h⟩ := hy x; simp [ys, h]
  have hcs : ∀ k x, waveChannel sineTable time_ms k x
      = some ((waveChannel sineTable time_ms k x).getD 0) := by
    intro k x; obtain ⟨c, h⟩ := hc k x; simp [h]
  let col : Int → List DrawCmd := fun x =>
    [DrawCmd.point x (ys x - 1) (cs x), DrawCmd.point x (ys x) (cs x),
     DrawCmd.point x (ys x + 1) (cs x)]
  let paint : Renderer → Int → Renderer := fun r x =>
    { drawColor := cs x, cmds := r.cmds ++ col x }
  have hstep : ∀ r x, waveStep sineTable time_ms r x = some (paint r x) := fun r x =>
    waveStep_eq sineTable time_ms r x (ys x) _ _ _ (hys x) (hcs 10 x) (hcs 15 x) (hcs 20 x)
  have hrange : intRange 0 (WINDOW_WIDTH - 1) = (List.range 640).map fun k : Nat => (k : Int) :=
    intRange_zero 640
  have hcmds : ((intRange 0 (WINDOW_WIDTH - 1)).foldl paint rend).cmds
      = rend.cmds ++ (List.range 640).flatMap (fun k : Nat => col (k : Int)) := by
    rw [foldl_cmds paint col (fun _ _ => rfl), hrange, List.flatMap_map]
  refine ⟨ys, cs, fun x => ⟨hys x, hcs 10 x, hcs 15 x, hcs 20 x, rfl⟩,
    (intRange 0 (WINDOW_WIDTH - 1)).foldl paint rend, ?_, hcmds, ?_⟩
  · exact foldlM_total _ paint _ (fun r x _ => hstep r x) rend
  · rw [hcmds, List.length_append,
      flatMap_length_const (fun k : Nat => col (k : Int)) 3 (fun _ => rfl), List.length_range]

/-- Witness of C6 over the rationals: the table of 360 zeros at `time_ms = 12345`
on a renderer that has received nothing. -/
theorem DrawSineWave_columns_witness :
    (List.replicate 360 (0 : ℚ)).length = 360 ∧
    ∃ (ys : Int → Int) (cs : Int → Color),
      (∀ x, waveY (List.replicate 360 (0 : ℚ)) 12345 x = some (ys x) ∧
        waveChannel (List.replicate 360 (0 : ℚ)) 12345 10 x = some (cs x).r ∧
        waveChannel (List.replicate 360 (0 : ℚ)) 12345 15 x = some (cs x).g ∧
        waveChannel (List.replicate 360 (0 : ℚ)) 12345 20 x = some (cs x).b ∧ (cs x).a = 255) ∧
      ∃ out, DrawSineWave ⟨⟨0, 0, 0, 0⟩, []⟩ (List.replicate 360 (0 : ℚ)) 12345 = some out ∧
        out.cmds = (⟨⟨0, 0, 0, 0⟩, []⟩ : Renderer).cmds ++ (List.range 640).flatMap
          (fun k : Nat =>
            [DrawCmd.point k (ys k - 1) (cs k), DrawCmd.point k (ys k) (cs k),
             DrawCmd.point k (ys k + 1) (cs k)]) ∧
        out.cmds.length = (⟨⟨0, 0, 0, 0⟩, []⟩ : Renderer).cmds.length + 1920 :=
  ⟨List.length_replicate _ _,
   DrawSineWave_columns ⟨⟨0, 0, 0, 0⟩, []⟩ (List.replicate 360 (0 : ℚ)) 12345
     (List.length_replicate _ _)⟩

end WaveClaims

/-! ## Claims on the cube -/

section CubeClaims

variable {α : Type} [LinearOrderedField α] [FloorRing α]

/-- C7: the vertex table has 8 entries and the edge table 12, and for every
`time_ms` (and whatever `cosf` and `sinf` return) `Draw3DCube` appends exactly 12
line commands: one per entry of the edge table, in table order, from the
projection of the edge's first vertex to the projection of its second, each
in colour `(255, 255, 255, 255)`. -/
theorem Draw3DCube_lines (cosf sinf : α → α) (rend : Renderer) (time_ms : Nat) :
    (vertices : List (α × α × α)).length = 8 ∧ edges.length = 12 ∧
    ∃ pts : Int → Int × Int,
      (∀ e ∈ edges, ∃ p0 p1 : α × α × α,
        readAt vertices e.1 = some p0 ∧ readAt vertices e.2 = some p1) ∧
      (∀ v (p : α × α × α), readAt vertices v = some p → pts v =
        (project (rotX p.1 p.2.2 (cosf ((time_ms : α) / 1000)) (sinf ((time_ms : α) / 1000)))
           (rotZ p.1 p.2.2 (cosf ((time_ms : α) / 1000)) (sinf ((time_ms : α) / 1000)))
           (Int.tdiv WINDOW_WIDTH 2),
         project p.2.1
           (rotZ p.1 p.2.2 (cosf ((time_ms : α) / 1000)) (sinf ((time_ms : α) / 1000)))
           (Int.tdiv WINDOW_HEIGHT 2))) ∧
      ∃ out, Draw3DCube cosf sinf rend time_ms = some out ∧
        out.cmds = rend.cmds ++ edges.map (fun e =>
          DrawCmd.line (pts e.1).1 (pts e.1).2 (pts e.2).1 (pts e.2).2 ⟨255, 255, 255, 255⟩) ∧
        out.cmds.length = rend.cmds.length + 12 := by
  refine ⟨rfl, rfl, ?_⟩
  let cosA := cosf ((time_ms : α) / 1000)
  let sinA := sinf ((time_ms : α) / 1000)
  let scr : α × α × α → Int × Int := fun p =>
    (project (rotX p.1 p.2.2 cosA sinA) (rotZ p.1 p.2.2 cosA sinA) (Int.tdiv WINDOW_WIDTH 2),
     project p.2.1 (rotZ p.1 p.2.2 cosA sinA) (Int.tdiv WINDOW_HEIGHT 2))
  let pts : Int → Int × Int := fun v =>
    match readAt (vertices : List (α × α × α)) v with
    | some p => scr p
    | none => (0, 0)
  have hpts : ∀ v (p : α × α × α), readAt vertices v = some p → pts v = scr p := by
    intro v p h
    simp only [pts, h]
  let lineOf : Int × Int → DrawCmd := fun e =>
    DrawCmd.line (pts e.1).1 (pts e.1).2 (pts e.2).1 (pts e.2).2 ⟨255, 255, 255, 255⟩
  let lineAt : Int → List DrawCmd := fun i =>
    match readAt edges i with
    | some e => [lineOf e]
    | none => []
  let step : Renderer → Int → Renderer := fun r i =>
    { drawColor := ⟨255, 255, 255, 255⟩, cmds := r.cmds ++ lineAt i }
  have hall : ∀ r, ∀ i ∈ intRange 0 (12 - 1), cubeStep cosA sinA r i = some (step r i) := by
    intro r i hi
    obtain ⟨e, he, hmem⟩ := edges_read i hi
    obtain ⟨p0, p1, h0, h1⟩ := vertices_read (F := α) e hmem
    rw [cubeStep_eq cosA sinA r i e p0 p1 he h0 h1]
    simp only [step, lineAt, he, lineOf, hpts _ _ h0, hpts _ _ h1, scr]
  have hcmds : ((intRange 0 (12 - 1)).foldl step rend).cmds = rend.cmds ++ edges.map lineOf := by
    rw [foldl_cmds step lineAt (fun _ _ => rfl), cube_loop_range]
    rfl
  refine ⟨pts, vertices_read, hpts, (intRange 0 (12 - 1)).foldl step rend, ?_, hcmds, ?_⟩
  · exact foldlM_total _ step _ hall rend
  · rw [hcmds, List.length_append, List.length_map]
    rfl

/-- C8: for every rotation (`cosA`, `sinA` real with `cosA² + sinA² = 1`) and
every vertex `(x, y, z)` of the vertex table, the rotated depth
`rz = x * sinA + z * cosA` has `|rz| ≤ 50 * √2`, so the divisor `rz + 200` of the
projection is at least `200 - 50 * √2`, which exceeds 129: it is positive and
the projection never divides by zero. -/
theorem cube_depth_positive (cosA sinA : ℝ) (p : ℝ × ℝ × ℝ)
    (hrot : cosA ^ 2 + sinA ^ 2 = 1) (hp : p ∈ (vertices : List (ℝ × ℝ × ℝ))) :
    |rotZ p.1 p.2.2 cosA sinA| ≤ 50 * Real.sqrt 2 ∧
    200 - 50 * Real.sqrt 2 ≤ rotZ p.1 p.2.2 cosA sinA + 200 ∧
    (129 : ℝ) < 200 - 50 * Real.sqrt 2 ∧
    0 < rotZ p.1 p.2.2 cosA sinA + 200 ∧ rotZ p.1 p.2.2 cosA sinA + 200 ≠ 0 := by
  have hs0 : (0 : ℝ) ≤ Real.sqrt 2 := Real.sqrt_nonneg 2
  have hs2 : Real.sqrt 2 ^ 2 = 2 := Real.sq_sqrt (by norm_num)
  have hs142 : Real.sqrt 2 < 1.42 := (Real.sqrt_lt' (by norm_num)).mpr (by norm_num)
  have hsq : rotZ p.1 p.2.2 cosA sinA ^ 2 ≤ (50 * Real.sqrt 2) ^ 2 := by
    have hxz : p.1 ^ 2 + p.2.2 ^ 2 = 5000 := by
      simp only [vertices, List.mem_cons, List.mem_singleton, List.not_mem_nil, or_false] at hp
      rcases hp with h | h | h | h | h | h | h | h <;> subst h <;> norm_num
    have hid : rotZ p.1 p.2.2 cosA sinA ^ 2 + rotX p.1 p.2.2 cosA sinA ^ 2
        = (p.1 ^ 2 + p.2.2 ^ 2) * (cosA ^ 2 + sinA ^ 2) := by
      unfold rotZ rotX; ring
    rw [hxz, hrot] at hid
    have : (50 * Real.sqrt 2) ^ 2 = 5000 := by rw [mul_pow, hs2]; norm_num
    rw [this]
    nlinarith [sq_nonneg (rotX p.1 p.2.2 cosA sinA)]
  have habs : |rotZ p.1 p.2.2 cosA sinA| ≤ 50 * Real.sqrt 2 :=
    abs_le_of_sq_le_sq hsq (by positivity)
  have hlow := (abs_le.mp habs).1
  refine ⟨habs, by linarith, by linarith, by linarith, ?_⟩
  have : 0 < rotZ p.1 p.2.2 cosA sinA + 200 := by linarith
  exact ne_of_gt this

/-- Witness of C8: the rotation with `cosA = 3/5`, `sinA = 4/5` and the vertex
`(-50, -50, -50)`. -/
theorem cube_depth_positive_witness :
    ((3 / 5 : ℝ) ^ 2 + (4 / 5 : ℝ) ^ 2 = 1) ∧
    (((-50 : ℝ), (-50 : ℝ), (-50 : ℝ)) ∈ (vertices : List (ℝ × ℝ × ℝ))) ∧
    (|rotZ (-50 : ℝ) (-50) (3 / 5) (4 / 5)| ≤ 50 * Real.sqrt 2 ∧
     200 - 50 * Real.sqrt 2 ≤ rotZ (-50 : ℝ) (-50) (3 / 5) (4 / 5) + 200 ∧
     (129 : ℝ) < 200 - 50 * Real.sqrt 2 ∧
     0 < rotZ (-50 : ℝ) (-50) (3 / 5) (4 / 5) + 200 ∧
     rotZ (-50 : ℝ) (-50) (3 / 5) (4 / 5) + 200 ≠ 0) :=
  ⟨by norm_num, by simp [vertices],
   cube_depth_positive (3 / 5) (4 / 5) ((-50 : ℝ), (-50 : ℝ), (-50 : ℝ)) (by norm_num)
     (by simp [vertices])⟩

end CubeClaims

/-! ## Claims on the frame driver -/

section FrameClaims

variable {α : Type} [LinearOrderedField α] [FloorRing α]

/-- C9, counterexample: the claim as stated fails at `prev = 0`. A first
iteration that reads the tick count 0 leaves `last_ticks = 0`; in the next
iteration, with `prev = 0` and `now = 100`, the delta is `16 / 16.6667` and not
`(100 - 0) / 16.6667`. -/
theorem loop_later_frame_prev_zero :
    (loop (fun _ => (1 : ℚ)) (fun _ => 0) ⟨List.replicate 360 0, [], fun _ => 0, 0⟩ 0 []).map
      (fun o => o.1.last_ticks) = some 0 ∧
    (loopDt 0 100 : ℚ) = 16 / 16.6667 ∧
    (loopDt 0 100 : ℚ) ≠ ((100 : ℚ) - 0) / 16.6667 := by
  refine ⟨rfl, loopDt_zero 100, ?_⟩
  rw [loopDt_zero]
  norm_num

/-- C9, amended: in an iteration of `loop` whose recorded tick count `prev` is
not zero, with `prev ≤ now` (both `Uint32`), the delta is
`(now - prev) / 16.6667`: the iteration is the window loop run with that delta,
it returns with `last_ticks = now`, and with one renderer the stars it leaves
are those of `UpdateStars` at that delta. -/
theorem loop_later_frame (cosf sinf : α → α) (s : Globals α) (now : Nat)
    (renderers : List (Option Renderer)) (rend : Renderer)
    (hprev : s.last_ticks ≠ 0) (hle : s.last_ticks ≤ now) (hnow : now < 2 ^ 32)
    (hlen : s.sineTable.length = 360) :
    (loopDt s.last_ticks now : α) = ((now : α) - (s.last_ticks : α)) / 16.6667 ∧
    loop cosf sinf s now renderers
      = loopWindows cosf sinf (((now : α) - (s.last_ticks : α)) / 16.6667) now
          { s with last_ticks := now } renderers ∧
    (∃ out, loop cosf sinf s now renderers = some out ∧ out.1.last_ticks = now) ∧
    (∃ out, loop cosf sinf s now [some rend] = some out ∧ out.1.last_ticks = now ∧
      out.1.stars
        = (UpdateStars s.stars (((now : α) - (s.last_ticks : α)) / 16.6667) s.rng).1) := by
  have hdt : (loopDt s.last_ticks now : α) = ((now : α) - (s.last_ticks : α)) / 16.6667 := by
    rw [loopDt_of_ne_zero s.last_ticks now hprev hle hnow, Nat.cast_sub hle]
  have hloop : ∀ rs, loop cosf sinf s now rs
      = loopWindows cosf sinf (((now : α) - (s.last_ticks : α)) / 16.6667) now
          { s with last_ticks := now } rs := by
    intro rs
    unfold loop
    simp only [hdt]
  refine ⟨hdt, hloop renderers, ?_, ?_⟩
  · obtain ⟨out, ho, _, ht, _⟩ := loopWindows_total cosf sinf
      (((now : α) - (s.last_ticks : α)) / 16.6667) now { s with last_ticks := now } renderers hlen
    exact ⟨out, by rw [hloop, ho], ht⟩
  · obtain ⟨f, hf, hstars, _, _, ht⟩ := drawFrame_total cosf sinf
      (((now : α) - (s.last_ticks : α)) / 16.6667) now { s with last_ticks := now } rend hlen
    refine ⟨(f.1, [some f.2]), ?_, ht, hstars⟩
    rw [hloop]
    simp only [loopWindows, hf, Option.bind_eq_bind, Option.some_bind]
    rfl

/-- Witness of the amended C9 over the rationals: an iteration at tick 37 after
a recorded tick 20, with the table of 360 zeros, one star and one renderer. -/
theorem loop_later_frame_witness :
    ((⟨List.replicate 360 0, [⟨1, 2, 3, 4, 5, 6⟩], fun _ => 0, 20⟩ : Globals ℚ).last_ticks ≠ 0) ∧
    ((⟨List.replicate 360 0, [⟨1, 2, 3, 4, 5, 6⟩], fun _ => 0, 20⟩ : Globals ℚ).last_ticks ≤ 37) ∧
    (37 < 2 ^ 32) ∧
    ((⟨List.replicate 360 0, [⟨1, 2, 3, 4, 5, 6⟩], fun _ => 0, 20⟩ : Globals ℚ).sineTable.length
      = 360) ∧
    ((loopDt (⟨List.replicate 360 0, [⟨1, 2, 3, 4, 5, 6⟩], fun _ => 0, 20⟩ :
        Globals ℚ).last_ticks 37 : ℚ) = (((37 : Nat) : ℚ) - ((⟨List.replicate 360 0,
          [⟨1, 2, 3, 4, 5, 6⟩], fun _ => 0, 20⟩ : Globals ℚ).last_ticks : ℚ)) / 16.6667) ∧
    (∃ out, loop (fun _ => 1) (fun _ => 0)
        (⟨List.replicate 360 0, [⟨1, 2, 3, 4, 5, 6⟩], fun _ => 0, 20⟩ : Globals ℚ) 37
        [none, some ⟨⟨0, 0, 0, 0⟩, []⟩] = some out ∧ out.1.last_ticks = 37) :=
  ⟨by decide, by decide, by norm_num, List.length_replicate _ _,
   (loop_later_frame (fun _ => 1) (fun _ => 0)
     (⟨List.replicate 360 0, [⟨1, 2, 3, 4, 5, 6⟩], fun _ => 0, 20⟩ : Globals ℚ) 37
     [none, some ⟨⟨0, 0, 0, 0⟩, []⟩] ⟨⟨0, 0, 0, 0⟩, []⟩ (by decide) (by decide) (by norm_num)
     (List.length_replicate _ _)).1,
   (loop_later_frame (fun _ => 1) (fun _ => 0)
     (⟨List.replicate 360 0, [⟨1, 2, 3, 4, 5, 6⟩], fun _ => 0, 20⟩ : Globals ℚ) 37
     [none, some ⟨⟨0, 0, 0, 0⟩, []⟩] ⟨⟨0, 0, 0, 0⟩, []⟩ (by decide) (by decide) (by norm_num)
     (List.length_replicate _ _)).2.2.1⟩

/-- C10: on the first iteration of `loop` (`last_ticks = 0`), for every tick
count `now` the delta is `16 / 16.6667`: the iteration is the window loop run
with that delta, it returns with `last_ticks = now`, and with one renderer the
stars it leaves are those of `UpdateStars (16 / 16.6667)`. -/
theorem loop_first_frame (cosf sinf : α → α) (s : Globals α) (now : Nat)
    (renderers : List (Option Renderer)) (rend : Renderer)
    (hfirst : s.last_ticks = 0) (hlen : s.sineTable.length = 360) :
    (loopDt s.last_ticks now : α) = 16 / 16.6667 ∧
    loop cosf sinf s now renderers
      = loopWindows cosf sinf (16 / 16.6667) now { s with last_ticks := now } renderers ∧
    (∃ out, loop cosf sinf s now renderers = some out ∧ out.1.last_ticks = now) ∧
    (∃ out, loop cosf sinf s now [some rend] = some out ∧ out.1.last_ticks = now ∧
      out.1.stars = (UpdateStars s.stars (16 / 16.6667) s.rng).1) := by
  have hdt : (loopDt s.last_ticks now : α) = 16 / 16.6667 := by rw [hfirst]; exact loopDt_zero now
  have hloop : ∀ rs, loop cosf sinf s now rs
      = loopWindows cosf sinf (16 / 16.6667) now { s with last_ticks := now } rs := by
    intro rs
    unfold loop
    simp only [hdt]
  refine ⟨hdt, hloop renderers, ?_, ?_⟩
  · obtain ⟨out, ho, _, ht, _⟩ := loopWindows_total cosf sinf (16 / 16.6667 : α) now
      { s with last_ticks := now } renderers hlen
    exact ⟨out, by rw [hloop, ho], ht⟩
  · obtain ⟨f, hf, hstars, _, _, ht⟩ := drawFrame_total cosf sinf (16 / 16.6667 : α) now
      { s with last_ticks := now } rend hlen
    refine ⟨(f.1, [some f.2]), ?_, ht, hstars⟩
    rw [hloop]
    simp only [loopWindows, hf, Option.bind_eq_bind, Option.some_bind]
    rfl

/-- Witness of C10 over the rationals: a first iteration at tick 5 with the
table of 360 zeros, one star and one renderer. -/
theorem loop_first_frame_witness :
    ((⟨List.replicate 360 0, [⟨1, 2, 3, 4, 5, 6⟩], fun _ => 0, 0⟩ : Globals ℚ).last_ticks = 0) ∧
    ((⟨List.replicate 360 0, [⟨1, 2, 3, 4, 5, 6⟩], fun _ => 0, 0⟩ : Globals ℚ).sineTable.length
      = 360) ∧
    ((loopDt (⟨List.replicate 360 0, [⟨1, 2, 3, 4, 5, 6⟩], fun _ => 0, 0⟩ :
        Globals ℚ).last_ticks 5 : ℚ) = 16 / 16.6667 ∧
     loop (fun _ => 1) (fun _ => 0)
        (⟨List.replicate 360 0, [⟨1, 2, 3, 4, 5, 6⟩], fun _ => 0, 0⟩ : Globals ℚ) 5
        [none, some ⟨⟨0, 0, 0, 0⟩, []⟩]
      = loopWindows (fun _ => 1) (fun _ => 0) (16 / 16.6667) 5
        { (⟨List.replicate 360 0, [⟨1, 2, 3, 4, 5, 6⟩], fun _ => 0, 0⟩ : Globals ℚ) with
          last_ticks := 5 } [none, some ⟨⟨0, 0, 0, 0⟩, []⟩] ∧
     (∃ out, loop (fun _ => 1) (fun _ => 0)
        (⟨List.replicate 360 0, [⟨1, 2, 3, 4, 5, 6⟩], fun _ => 0, 0⟩ : Globals ℚ) 5
        [none, some ⟨⟨0, 0, 0, 0⟩, []⟩] = some out ∧ out.1.last_ticks = 5) ∧
     (∃ out, loop (fun _ => 1) (fun _ => 0)
        (⟨List.replicate 360 0, [⟨1, 2, 3, 4, 5, 6⟩], fun _ => 0, 0⟩ : Globals ℚ) 5
        [some ⟨⟨0, 0, 0, 0⟩, []⟩] = some out ∧ out.1.last_ticks = 5 ∧
        out.1.stars = (UpdateStars
          (⟨List.replicate 360 0, [⟨1, 2, 3, 4, 5, 6⟩], fun _ => 0, 0⟩ : Globals ℚ).stars
          (16 / 16.6667)
          (⟨List.replicate 360 0, [⟨1, 2, 3, 4, 5, 6⟩], fun _ => 0, 0⟩ : Globals ℚ).rng).1)) :=
  ⟨rfl, List.length_replicate _ _,
   loop_first_frame (fun _ => 1) (fun _ => 0)
     (⟨List.replicate 360 0, [⟨1, 2, 3, 4, 5, 6⟩], fun _ => 0, 0⟩ : Globals ℚ) 5
     [none, some ⟨⟨0, 0, 0, 0⟩, []⟩] ⟨⟨0, 0, 0, 0⟩, []⟩ rfl (List.length_replicate _ _)⟩

end FrameClaims

/-! ## Claims on star drawing -/

section StarDrawClaims

variable {α : Type} [LinearOrderedField α] [FloorRing α]

/-- C11, counterexample: the claim as stated fails at `z = 80`. The value
`(1 - 80/200) * 3` is `9/5`; the square `DrawStars` emits has side 1, while
`max(1, round(9/5))` is 2. -/
theorem star_size_round_fails :
    (DrawStars ⟨⟨0, 0, 0, 0⟩, []⟩ [(⟨0, 0, 80, 7, 8, 9⟩ : Star ℚ)]).cmds
      = [DrawCmd.fillRect 320 240 1 1 ⟨7, 8, 9, 255⟩] ∧
    specStarSize (80 : ℚ) = 2 ∧ starSize (80 : ℚ) = 1 := by
  have hv : ((1 : ℚ) - 80 / 200) * 3 = 9 / 5 := by norm_num
  have hfloor : Int.floor ((9 : ℚ) / 5) = 1 :=
    Int.floor_eq_iff.mpr ⟨by norm_num, by norm_num⟩
  have hsize : starSize (80 : ℚ) = 1 := by
    rw [starSize_eq_exact 80 (by norm_num) (by norm_num) (Or.inl (by norm_num)), hv,
      truncToInt_of_nonneg _ (by norm_num), hfloor]
    rfl
  have hround : specStarSize (80 : ℚ) = 2 := by
    unfold specStarSize
    rw [hv, round_eq]
    have : Int.floor ((9 : ℚ) / 5 + 1 / 2) = 2 :=
      Int.floor_eq_iff.mpr ⟨by norm_num, by norm_num⟩
    rw [this]
    rfl
  have hscreen : starScreen (⟨0, 0, 80, 7, 8, 9⟩ : Star ℚ) = (320, 240) :=
    starScreen_centre _ rfl rfl
  refine ⟨?_, hround, hsize⟩
  rw [DrawStars_cmds]
  simp only [List.map_cons, List.map_nil, List.nil_append, starRect, hscreen, hsize]
  rfl

/-- C11, amended: `DrawStars` appends one square per star whose side is
`max(1, trunc(v))`, with `v` the single-precision value of
`(1.0f - z / 200.0f) * 3.0f` and `trunc` the truncation towards zero of the
`(int)` cast. For a depth `z` in `(0, 200]`, `v` is within `2^(-21)` of
`(1 - z/200) * 3`, and the side is `max(1, trunc((1 - z/200) * 3))` when that
exact value is at most `2 - 2^(-20)` or lies in `[2 + 2^(-20), 3 - 2^(-20)]`. -/
theorem star_size_trunc (rend : Renderer) (stars : List (Star α)) (z : α)
    (h0 : 0 < z) (h1 : z ≤ 200) :
    (DrawStars rend stars).cmds = rend.cmds ++ stars.map (fun s =>
      DrawCmd.fillRect
        ((starScreen s).1 - Int.tdiv (max 1 (truncToInt (starSizeValue s.z))) 2)
        ((starScreen s).2 - Int.tdiv (max 1 (truncToInt (starSizeValue s.z))) 2)
        (max 1 (truncToInt (starSizeValue s.z)))
        (max 1 (truncToInt (starSizeValue s.z)))
        ⟨s.r, s.g, s.b, 255⟩) ∧
    starSize z = max 1 (truncToInt (starSizeValue z)) ∧
    |starSizeValue z - (1 - z / 200) * 3| ≤ 1 / 2097152 ∧
    ((1 - z / 200) * 3 ≤ 2 - 1 / 1048576 ∨
        (2 + 1 / 1048576 ≤ (1 - z / 200) * 3 ∧ (1 - z / 200) * 3 ≤ 3 - 1 / 1048576) →
      starSize z = max 1 (truncToInt ((1 - z / 200) * 3))) := by
  refine ⟨?_, starSize_eq_max z, starSizeValue_err z h0 h1, starSize_eq_exact z h0 h1⟩
  rw [DrawStars_cmds]
  congr 1
  apply List.map_congr_left
  intro s _
  unfold starRect
  rw [starSize_eq_max]

/-- Witness of the amended C11 over the rationals: the pool of the one star
`(x=0, y=0, z=80)` and the depth 80, where the exact value is `9/5`. -/
theorem star_size_trunc_witness :
    ((0 : ℚ) < 80) ∧ ((80 : ℚ) ≤ 200) ∧
    (starSize (80 : ℚ) = max 1 (truncToInt (starSizeValue (80 : ℚ))) ∧
     |starSizeValue (80 : ℚ) - (1 - 80 / 200) * 3| ≤ 1 / 2097152 ∧
     starSize (80 : ℚ) = max 1 (truncToInt (((1 : ℚ) - 80 / 200) * 3))) :=
  ⟨by norm_num, by norm_num,
   (star_size_trunc ⟨⟨0, 0, 0, 0⟩, []⟩ [(⟨0, 0, 80, 7, 8, 9⟩ : Star ℚ)] 80 (by norm_num)
     (by norm_num)).2.1,
   (star_size_trunc ⟨⟨0, 0, 0, 0⟩, []⟩ [(⟨0, 0, 80, 7, 8, 9⟩ : Star ℚ)] 80 (by norm_num)
     (by norm_num)).2.2.1,
   (star_size_trunc ⟨⟨0, 0, 0, 0⟩, []⟩ [(⟨0, 0, 80, 7, 8, 9⟩ : Star ℚ)] 80 (by norm_num)
     (by norm_num)).2.2.2 (Or.inl (by norm_num))⟩

/-- C12: for every star with `x = 0` and `y = 0`, whatever its depth, `DrawStars`
computes `screen_x = 320` and `screen_y = 240` and draws the square of its size
around that point; at depth 100 the size is 1 and the rectangle is
`{320, 240, 1, 1}` in the star's colour with alpha 255. -/
theorem star_centre_projection (rend : Renderer) (s : Star α) (hx : s.x = 0) (hy : s.y = 0) :
    starScreen s = (320, 240) ∧
    (drawStar rend s).cmds = rend.cmds ++ [DrawCmd.fillRect
      (320 - Int.tdiv (starSize s.z) 2) (240 - Int.tdiv (starSize s.z) 2)
      (starSize s.z) (starSize s.z) ⟨s.r, s.g, s.b, 255⟩] ∧
    (s.z = 100 → starSize s.z = 1 ∧
      (DrawStars rend [s]).cmds
        = rend.cmds ++ [DrawCmd.fillRect 320 240 1 1 ⟨s.r, s.g, s.b, 255⟩]) := by
  have hscreen : starScreen s = (320, 240) := starScreen_centre s hx hy
  refine ⟨hscreen, ?_, ?_⟩
  · rw [drawStar_eq]
    simp only [starRect, hscreen]
  · intro hz
    have hv : ((1 : α) - 100 / 200) * 3 = 3 / 2 := by norm_num
    have hfloor : Int.floor ((3 : α) / 2) = 1 :=
      Int.floor_eq_iff.mpr ⟨by norm_num, by norm_num⟩
    have hsize : starSize s.z = 1 := by
      rw [hz, starSize_eq_exact 100 (by norm_num) (by norm_num) (Or.inl (by norm_num)), hv,
        truncToInt_of_nonneg _ (by norm_num), hfloor]
      rfl
    refine ⟨hsize, ?_⟩
    rw [DrawStars_cmds]
    simp only [List.map_cons, List.map_nil, starRect, hscreen, hsize]
    rfl

/-- Witness of C12 over the rationals: the star `(x=0, y=0, z=100)` with colour
`(7, 8, 9)`. -/
theorem star_centre_projection_witness :
    ((⟨0, 0, 100, 7, 8, 9⟩ : Star ℚ).x = 0) ∧ ((⟨0, 0, 100, 7, 8, 9⟩ : Star ℚ).y = 0) ∧
    (starScreen (⟨0, 0, 100, 7, 8, 9⟩ : Star ℚ) = (320, 240) ∧
     starSize (⟨0, 0, 100, 7, 8, 9⟩ : Star ℚ).z = 1 ∧
     (DrawStars ⟨⟨0, 0, 0, 0⟩, []⟩ [(⟨0, 0, 100, 7, 8, 9⟩ : Star ℚ)]).cmds
       = (⟨⟨0, 0, 0, 0⟩, []⟩ : Renderer).cmds
          ++ [DrawCmd.fillRect 320 240 1 1 ⟨7, 8, 9, 255⟩]) :=
  ⟨rfl, rfl,
   (star_centre_projection ⟨⟨0, 0, 0, 0⟩, []⟩ (⟨0, 0, 100, 7, 8, 9⟩ : Star ℚ) rfl rfl).1,
   ((star_centre_projection ⟨⟨0, 0, 0, 0⟩, []⟩ (⟨0, 0, 100, 7, 8, 9⟩ : Star ℚ) rfl rfl).2.2
      rfl).1,
   ((star_centre_projection ⟨⟨0, 0, 0, 0⟩, []⟩ (⟨0, 0, 100, 7, 8, 9⟩ : Star ℚ) rfl rfl).2.2
      rfl).2⟩

/-- C17, counterexample: the claim as stated fails at the depth `z = 2^(-20)`,
which lies in `(0, 200]`. There `1.0f - z / 200.0f` rounds to 1, the size is 3
and `DrawStars` fills the rectangle `{319, 239, 3, 3}`. -/
theorem star_size_three :
    ((0 : ℚ) < 1 / 1048576) ∧ ((1 : ℚ) / 1048576 ≤ 200) ∧
    starSize ((1 : ℚ) / 1048576) = 3 ∧
    (DrawStars ⟨⟨0, 0, 0, 0⟩, []⟩ [(⟨0, 0, 1 / 1048576, 7, 8, 9⟩ : Star ℚ)]).cmds
      = [DrawCmd.fillRect 319 239 3 3 ⟨7, 8, 9, 255⟩] := by
  have hsize : starSize ((1 : ℚ) / 1048576) = 3 := starSize_tiny _ (by norm_num) (by norm_num)
  have hscreen : starScreen (⟨0, 0, 1 / 1048576, 7, 8, 9⟩ : Star ℚ) = (320, 240) :=
    starScreen_centre _ rfl rfl
  refine ⟨by norm_num, by norm_num, hsize, ?_⟩
  rw [DrawStars_cmds]
  simp only [List.map_cons, List.map_nil, List.nil_append, starRect, hscreen, hsize]
  rfl

/-- C17, amended: for depths `z1 ≤ z2` in `(0, 200]` the size `DrawStars`
computes, `max(1, trunc(v))` with `v` the single-precision value of
`(1.0f - z / 200.0f) * 3.0f`, is 1, 2 or 3 at each of them, and the farther star
is not drawn larger: `size z2 ≤ size z1`. From the depth `1/10000` on the size
is 1 or 2, never 3; up to the depth `1/1000000` it is 3. -/
theorem star_size_range (z1 z2 : α) (h0 : 0 < z1) (h12 : z1 ≤ z2) (h2 : z2 ≤ 200) :
    starSize z1 = max 1 (truncToInt (starSizeValue z1)) ∧
    (starSize z1 = 1 ∨ starSize z1 = 2 ∨ starSize z1 = 3) ∧
    (starSize z2 = 1 ∨ starSize z2 = 2 ∨ starSize z2 = 3) ∧
    starSize z2 ≤ starSize z1 ∧
    (1 / 10000 ≤ z1 →
      (starSize z1 = 1 ∨ starSize z1 = 2) ∧ starSize z1 ≠ 3 ∧
      (starSize z2 = 1 ∨ starSize z2 = 2) ∧ starSize z2 ≠ 3) ∧
    (z1 ≤ 1 / 1000000 → starSize z1 = 3) := by
  obtain ⟨e1, l1, u1⟩ := starSize_floor z1 h0 (le_trans h12 h2)
  obtain ⟨e2, l2, u2⟩ := starSize_floor z2 (lt_of_lt_of_le h0 h12) h2
  have hmono : Int.floor (starSizeValue z2) ≤ Int.floor (starSizeValue z1) :=
    Int.floor_le_floor (starSizeValue_anti z1 z2 h0 h12 h2)
  refine ⟨starSize_eq_max z1, by rw [e1]; omega, by rw [e2]; omega, by rw [e1, e2]; omega,
    fun hz => ?_, fun hz => starSize_tiny z1 h0 hz⟩
  have hlt1 : Int.floor (starSizeValue z1) < 3 :=
    Int.floor_lt.mpr (by push_cast; exact starSizeValue_lt_three z1 hz (le_trans h12 h2))
  rw [e1, e2]
  omega

/-- Witness of the amended C17 over the rationals: the depths 50 and 150, of
sizes 2 and 1. -/
theorem star_size_range_witness :
    ((0 : ℚ) < 50) ∧ ((50 : ℚ) ≤ 150) ∧ ((150 : ℚ) ≤ 200) ∧
    (starSize (150 : ℚ) ≤ starSize (50 : ℚ) ∧
     (starSize (50 : ℚ) = 1 ∨ starSize (50 : ℚ) = 2) ∧ starSize (50 : ℚ) ≠ 3 ∧
     (starSize (150 : ℚ) = 1 ∨ starSize (150 : ℚ) = 2) ∧ starSize (150 : ℚ) ≠ 3) :=
  ⟨by norm_num, by norm_num, by norm_num,
   (star_size_range (50 : ℚ) 150 (by norm_num) (by norm_num) (by norm_num)).2.2.2.1,
   (star_size_range (50 : ℚ) 150 (by norm_num) (by norm_num) (by norm_num)).2.2.2.2.1
     (by norm_num)⟩

end StarDrawClaims

/-! ## Claims on the star pool -/

section PoolClaims

variable {α : Type} [LinearOrderedField α]

/-- C14: for every sequence of non-negative `rand()` values, `InitStars` builds
200 stars, each with integer-valued `x` in `[-320, 319]`, integer-valued `y` in
`[-240, 239]`, integer-valued `z` in `[1, 200]` and `r`, `g`, `b` in `[0, 255]`. -/
theorem InitStars_postcondition (g : Rand) (hg : ∀ n, 0 ≤ g n) :
    (InitStars (α := α) g).1.length = 200 ∧
    ∀ s ∈ (InitStars (α := α) g).1,
      (∃ xi : Int, s.x = (xi : α) ∧ -320 ≤ xi ∧ xi ≤ 319) ∧
      (∃ yi : Int, s.y = (yi : α) ∧ -240 ≤ yi ∧ yi ≤ 239) ∧
      (∃ zi : Int, s.z = (zi : α) ∧ 1 ≤ zi ∧ zi ≤ 200) ∧
      0 ≤ s.r ∧ s.r ≤ 255 ∧ 0 ≤ s.g ∧ s.g ≤ 255 ∧ 0 ≤ s.b ∧ s.b ≤ 255 := by
  refine ⟨(initStarsLoop_spec (α := α) NUM_STARS g hg).1, ?_⟩
  refine initStarsLoop_forall (fun s : Star α =>
      (∃ xi : Int, s.x = (xi : α) ∧ -320 ≤ xi ∧ xi ≤ 319) ∧
      (∃ yi : Int, s.y = (yi : α) ∧ -240 ≤ yi ∧ yi ≤ 239) ∧
      (∃ zi : Int, s.z = (zi : α) ∧ 1 ≤ zi ∧ zi ≤ 200) ∧
      0 ≤ s.r ∧ s.r ≤ 255 ∧ 0 ≤ s.g ∧ s.g ≤ 255 ∧ 0 ≤ s.b ∧ s.b ≤ 255) ?_ NUM_STARS g hg
  intro h hh
  have hu8 : ∀ v : Int, toUint8 (Int.tmod v 256) ≤ 255 := by
    intro v
    unfold toUint8
    have h0 : 0 ≤ Int.tmod v 256 % 256 := Int.emod_nonneg _ (by decide)
    have h1 : Int.tmod v 256 % 256 < 256 := Int.emod_lt_of_pos _ (by decide)
    omega
  obtain ⟨hx0, hx1⟩ := respawn_x_range (h 0) (hh 0)
  obtain ⟨hy0, hy1⟩ := respawn_y_range (h 1) (hh 1)
  have hm : Int.tmod (h 2) 200 = h 2 % 200 := Int.tmod_eq_emod (hh 2) (by decide)
  have hz0 : 0 ≤ h 2 % 200 := Int.emod_nonneg _ (by decide)
  have hz1 : h 2 % 200 < 200 := Int.emod_lt_of_pos _ (by decide)
  refine ⟨⟨Int.tmod (h 0) WINDOW_WIDTH - Int.tdiv WINDOW_WIDTH 2, rfl, hx0, by omega⟩,
    ⟨Int.tmod (h 1) WINDOW_HEIGHT - Int.tdiv WINDOW_HEIGHT 2, rfl, hy0, by omega⟩,
    ⟨Int.tmod (h 2) 200 + 1, rfl, by omega, by omega⟩,
    Nat.zero_le _, hu8 _, Nat.zero_le _, hu8 _, Nat.zero_le _, hu8 _⟩

/-- Witness of C14 over the rationals: the generator returning `0, 1, 2, ..`. -/
theorem InitStars_postcondition_witness :
    (∀ n : Nat, (0 : Int) ≤ (fun k : Nat => (k : Int)) n) ∧
    ((InitStars (α := ℚ) (fun k : Nat => (k : Int))).1.length = 200 ∧
     ∀ s ∈ (InitStars (α := ℚ) (fun k : Nat => (k : Int))).1,
       (∃ xi : Int, s.x = (xi : ℚ) ∧ -320 ≤ xi ∧ xi ≤ 319) ∧
       (∃ yi : Int, s.y = (yi : ℚ) ∧ -240 ≤ yi ∧ yi ≤ 239) ∧
       (∃ zi : Int, s.z = (zi : ℚ) ∧ 1 ≤ zi ∧ zi ≤ 200) ∧
       0 ≤ s.r ∧ s.r ≤ 255 ∧ 0 ≤ s.g ∧ s.g ≤ 255 ∧ 0 ≤ s.b ∧ s.b ≤ 255) :=
  ⟨fun n => Int.ofNat_nonneg n,
   InitStars_postcondition (fun k : Nat => (k : Int)) (fun n => Int.ofNat_nonneg n)⟩

/-- C15: for every `dt`, `UpdateStars dt` leaves the colour `(r, g, b)` of star `i`
unchanged, respawned or not; a star that is not respawned (`z - 2 * dt > 0`)
keeps `x` and `y` and gets the depth `z - 2 * dt`. -/
theorem UpdateStars_frame (stars : List (Star α)) (dt : α) (g : Rand) (i : Nat)
    (s : Star α) (hs : stars[i]? = some s) :
    ∃ t, (UpdateStars stars dt g).1[i]? = some t ∧
      t.r = s.r ∧ t.g = s.g ∧ t.b = s.b ∧
      (0 < s.z - 2 * dt → t.x = s.x ∧ t.y = s.y ∧ t.z = s.z - 2 * dt) := by
  obtain ⟨g1, h1⟩ := UpdateStars_getElem stars dt g i s hs
  refine ⟨(updateStar s dt g1).1, h1, ?_⟩
  by_cases hz : s.z - 2 * dt ≤ 0
  · rw [updateStar_respawn s dt g1 hz]
    exact ⟨rfl, rfl, rfl, fun hpos => absurd hz (not_le.mpr hpos)⟩
  · rw [updateStar_move s dt g1 hz]
    exact ⟨rfl, rfl, rfl, fun _ => ⟨rfl, rfl, rfl⟩⟩

/-- Witness of C15 over the rationals: a pool of two stars, the first kept by
`dt = 1`, read at index 0. -/
theorem UpdateStars_frame_witness :
    ([(⟨3, 4, 50, 1, 2, 3⟩ : Star ℚ), ⟨5, 6, 1, 7, 8, 9⟩][0]? = some ⟨3, 4, 50, 1, 2, 3⟩) ∧
    ∃ t : Star ℚ, (UpdateStars [(⟨3, 4, 50, 1, 2, 3⟩ : Star ℚ), ⟨5, 6, 1, 7, 8, 9⟩] 1
        (fun k : Nat => (k : Int))).1[0]? = some t ∧
      t.r = (⟨3, 4, 50, 1, 2, 3⟩ : Star ℚ).r ∧ t.g = (⟨3, 4, 50, 1, 2, 3⟩ : Star ℚ).g ∧
      t.b = (⟨3, 4, 50, 1, 2, 3⟩ : Star ℚ).b ∧
      (0 < (⟨3, 4, 50, 1, 2, 3⟩ : Star ℚ).z - 2 * 1 →
        t.x = (⟨3, 4, 50, 1, 2, 3⟩ : Star ℚ).x ∧ t.y = (⟨3, 4, 50, 1, 2, 3⟩ : Star ℚ).y ∧
        t.z = (⟨3, 4, 50, 1, 2, 3⟩ : Star ℚ).z - 2 * 1) :=
  ⟨rfl, UpdateStars_frame [(⟨3, 4, 50, 1, 2, 3⟩ : Star ℚ), ⟨5, 6, 1, 7, 8, 9⟩] 1
     (fun k : Nat => (k : Int)) 0 ⟨3, 4, 50, 1, 2, 3⟩ rfl⟩

end PoolClaims

/-! ## Claims on the wave arithmetic -/

section WaveArithClaims

variable {α : Type} [LinearOrderedField α] [FloorRing α]

/-- C18: with a 360-entry sine table whose entries all lie in `[-1, 1]`, for
every `time_ms` and every column `x` the centre `y` that `DrawSineWave` computes
satisfies `140 ≤ y ≤ 340`, so the three points of the column have their `y` in
`[139, 341]`, inside the logical height `[0, 480)`. -/
theorem wave_inside_viewport (sineTable : List α) (time_ms : Nat) (x : Int)
    (hlen : sineTable.length = 360) (hrange : ∀ v ∈ sineTable, -1 ≤ v ∧ v ≤ 1) :
    ∃ y, waveY sineTable time_ms x = some y ∧ 140 ≤ y ∧ y ≤ 340 ∧
      (waveColumn sineTable time_ms x).length = 3 ∧
      ∀ px py c, DrawCmd.point px py c ∈ waveColumn sineTable time_ms x →
        px = x ∧ 139 ≤ py ∧ py ≤ 341 ∧ 0 ≤ py ∧ py < WINDOW_HEIGHT := by
  obtain ⟨v, hv⟩ := GetSine_isSome sineTable hlen
    (toInt32 (toInt32 (x * 6) + toInt32 ((time_ms / 5 : Nat) : Int)))
  obtain ⟨hv0, hv1⟩ := hrange v (GetSine_mem sineTable _ v hv)
  have hh : Int.tdiv WINDOW_HEIGHT 2 = 240 := by decide
  have hy : waveY sineTable time_ms x
      = some (truncToInt ((((240 : Int) : α)) + 100 * v)) := by
    unfold waveY
    rw [hv, hh]
    rfl
  have hlo : (((140 : Int) : α)) ≤ ((240 : Int) : α) + 100 * v := by push_cast; linarith
  have hhi : ((240 : Int) : α) + 100 * v ≤ ((340 : Int) : α) := by push_cast; linarith
  have hnn : (0 : α) ≤ ((240 : Int) : α) + 100 * v := by push_cast; linarith
  have hy0 : 140 ≤ truncToInt ((((240 : Int) : α)) + 100 * v) := by
    rw [truncToInt_of_nonneg _ hnn]
    exact Int.le_floor.mpr hlo
  have hy1 : truncToInt ((((240 : Int) : α)) + 100 * v) ≤ 340 := by
    rw [truncToInt_of_nonneg _ hnn]
    have h1 : ((Int.floor (((240 : Int) : α) + 100 * v) : Int) : α) ≤ ((340 : Int) : α) :=
      le_trans (Int.floor_le _) hhi
    exact_mod_cast h1
  obtain ⟨cr, hr⟩ := waveChannel_isSome sineTable hlen time_ms 10 x
  obtain ⟨cg, hg⟩ := waveChannel_isSome sineTable hlen time_ms 15 x
  obtain ⟨cb, hb⟩ := waveChannel_isSome sineTable hlen time_ms 20 x
  have hc := waveColumn_eq sineTable time_ms x _ cr cg cb hy hr hg hb
  have hH : WINDOW_HEIGHT = 480 := rfl
  refine ⟨_, hy, hy0, hy1, by rw [hc]; rfl, ?_⟩
  intro px py c hmem
  rw [hc] at hmem
  simp only [List.mem_cons, List.mem_singleton, List.not_mem_nil, or_false,
    DrawCmd.point.injEq] at hmem
  rcases hmem with ⟨h1, h2, _⟩ | ⟨h1, h2, _⟩ | ⟨h1, h2, _⟩ <;>
    exact ⟨h1, by omega, by omega, by omega, by omega⟩

/-- Witness of C18 over the rationals: the table of 360 ones at
`time_ms = 12345`, column 7. -/
theorem wave_inside_viewport_witness :
    (List.replicate 360 (1 : ℚ)).length = 360 ∧
    (∀ v ∈ List.replicate 360 (1 : ℚ), -1 ≤ v ∧ v ≤ 1) ∧
    ∃ y, waveY (List.replicate 360 (1 : ℚ)) 12345 7 = some y ∧ 140 ≤ y ∧ y ≤ 340 ∧
      (waveColumn (List.replicate 360 (1 : ℚ)) 12345 7).length = 3 ∧
      ∀ px py c, DrawCmd.point px py c ∈ waveColumn (List.replicate 360 (1 : ℚ)) 12345 7 →
        px = 7 ∧ 139 ≤ py ∧ py ≤ 341 ∧ 0 ≤ py ∧ py < WINDOW_HEIGHT :=
  ⟨List.length_replicate _ _,
   fun v hv => by rw [List.eq_of_mem_replicate hv]; norm_num,
   wave_inside_viewport (List.replicate 360 (1 : ℚ)) 12345 7 (List.length_replicate _ _)
     (fun v hv => by rw [List.eq_of_mem_replicate hv]; norm_num)⟩

/-- C19: for every 32-bit unsigned `time_ms` and every `x` in `[0, 640)` the
quotients `time_ms / 5, / 10, / 15, / 20` are unchanged by the `(int)` cast, the
sums `x * 6 + time_ms / 5` and `x + time_ms / k` (`k = 10, 15, 20`) are not
negative, below `2^31` and computed without wrap-around, so `GetSine` is called
with the mathematical values. -/
theorem wave_phase_no_overflow (sineTable : List α) (time_ms : Nat) (x : Int)
    (ht : time_ms < 2 ^ 32) (hx0 : 0 ≤ x) (hx1 : x < 640) :
    (toInt32 ((time_ms / 5 : Nat) : Int) = (time_ms : Int) / 5 ∧
     toInt32 ((time_ms / 10 : Nat) : Int) = (time_ms : Int) / 10 ∧
     toInt32 ((time_ms / 15 : Nat) : Int) = (time_ms : Int) / 15 ∧
     toInt32 ((time_ms / 20 : Nat) : Int) = (time_ms : Int) / 20) ∧
    (toInt32 (toInt32 (x * 6) + toInt32 ((time_ms / 5 : Nat) : Int))
        = x * 6 + (time_ms : Int) / 5 ∧
      0 ≤ x * 6 + (time_ms : Int) / 5 ∧ x * 6 + (time_ms : Int) / 5 < 2 ^ 31) ∧
    (toInt32 (x + toInt32 ((time_ms / 10 : Nat) : Int)) = x + (time_ms : Int) / 10 ∧
      0 ≤ x + (time_ms : Int) / 10 ∧ x + (time_ms : Int) / 10 < 2 ^ 31) ∧
    (toInt32 (x + toInt32 ((time_ms / 15 : Nat) : Int)) = x + (time_ms : Int) / 15 ∧
      0 ≤ x + (time_ms : Int) / 15 ∧ x + (time_ms : Int) / 15 < 2 ^ 31) ∧
    (toInt32 (x + toInt32 ((time_ms / 20 : Nat) : Int)) = x + (time_ms : Int) / 20 ∧
      0 ≤ x + (time_ms : Int) / 20 ∧ x + (time_ms : Int) / 20 < 2 ^ 31) ∧
    waveY sineTable time_ms x = (GetSine sineTable (x * 6 + (time_ms : Int) / 5)).map
      (fun s => truncToInt ((((Int.tdiv WINDOW_HEIGHT 2 : Int) : α)) + 100 * s)) ∧
    (∀ k ∈ [10, 15, 20], waveChannel sineTable time_ms k x
      = (GetSine sineTable (Int.tmod (x + (time_ms : Int) / (k : Int)) SINE_TABLE_SIZE)).map
          (fun s => toUint8 (truncToInt ((s + 1) * 127)))) := by
  have ht2 : time_ms < 4294967296 := by simpa using ht
  have e5 : toInt32 ((time_ms / 5 : Nat) : Int) = (time_ms : Int) / 5 := by
    rw [toInt32_of_range _ (by omega) (by omega)]; omega
  have e10 : toInt32 ((time_ms / 10 : Nat) : Int) = (time_ms : Int) / 10 := by
    rw [toInt32_of_range _ (by omega) (by omega)]; omega
  have e15 : toInt32 ((time_ms / 15 : Nat) : Int) = (time_ms : Int) / 15 := by
    rw [toInt32_of_range _ (by omega) (by omega)]; omega
  have e20 : toInt32 ((time_ms / 20 : Nat) : Int) = (time_ms : Int) / 20 := by
    rw [toInt32_of_range _ (by omega) (by omega)]; omega
  have e6 : toInt32 (x * 6) = x * 6 := toInt32_of_range _ (by omega) (by omega)
  have s5 : toInt32 (toInt32 (x * 6) + toInt32 ((time_ms / 5 : Nat) : Int))
      = x * 6 + (time_ms : Int) / 5 := by
    rw [e6, e5]; exact toInt32_of_range _ (by omega) (by omega)
  have s10 : toInt32 (x + toInt32 ((time_ms / 10 : Nat) : Int)) = x + (time_ms : Int) / 10 := by
    rw [e10]; exact toInt32_of_range _ (by omega) (by omega)
  have s15 : toInt32 (x + toInt32 ((time_ms / 15 : Nat) : Int)) = x + (time_ms : Int) / 15 := by
    rw [e15]; exact toInt32_of_range _ (by omega) (by omega)
  have s20 : toInt32 (x + toInt32 ((time_ms / 20 : Nat) : Int)) = x + (time_ms : Int) / 20 := by
    rw [e20]; exact toInt32_of_range _ (by omega) (by omega)
  have p31 : (2 : Int) ^ 31 = 2147483648 := by norm_num
  refine ⟨⟨e5, e10, e15, e20⟩, ⟨s5, by omega, by omega⟩, ⟨s10, by omega, by omega⟩,
    ⟨s15, by omega, by omega⟩, ⟨s20, by omega, by omega⟩, ?_, ?_⟩
  · unfold waveY
    rw [s5]
    cases GetSine sineTable (x * 6 + (time_ms : Int) / 5) <;> rfl
  · intro k hk
    simp only [List.mem_cons, List.mem_singleton, List.not_mem_nil, or_false] at hk
    rcases hk with h | h | h <;> subst h <;> unfold waveChannel
    · rw [s10]
      cases GetSine sineTable (Int.tmod (x + (time_ms : Int) / ((10 : Nat) : Int))
        SINE_TABLE_SIZE) <;> rfl
    · rw [s15]
      cases GetSine sineTable (Int.tmod (x + (time_ms : Int) / ((15 : Nat) : Int))
        SINE_TABLE_SIZE) <;> rfl
    · rw [s20]
      cases GetSine sineTable (Int.tmod (x + (time_ms : Int) / ((20 : Nat) : Int))
        SINE_TABLE_SIZE) <;> rfl

/-- Witness of C19 over the rationals: the largest `time_ms`, `2^32 - 1`, and the
last column, `x = 639`. -/
theorem wave_phase_no_overflow_witness :
    (4294967295 < 2 ^ 32) ∧ ((0 : Int) ≤ 639) ∧ ((639 : Int) < 640) ∧
    (toInt32 ((4294967295 / 5 : Nat) : Int) = ((4294967295 : Nat) : Int) / 5 ∧
     toInt32 ((4294967295 / 10 : Nat) : Int) = ((4294967295 : Nat) : Int) / 10 ∧
     toInt32 ((4294967295 / 15 : Nat) : Int) = ((4294967295 : Nat) : Int) / 15 ∧
     toInt32 ((4294967295 / 20 : Nat) : Int) = ((4294967295 : Nat) : Int) / 20) ∧
    (toInt32 (toInt32 (639 * 6) + toInt32 ((4294967295 / 5 : Nat) : Int))
        = 639 * 6 + ((4294967295 : Nat) : Int) / 5 ∧
      0 ≤ 639 * 6 + ((4294967295 : Nat) : Int) / 5 ∧
      639 * 6 + ((4294967295 : Nat) : Int) / 5 < 2 ^ 31) :=
  ⟨by norm_num, by decide, by decide,
   (wave_phase_no_overflow (List.replicate 360 (0 : ℚ)) 4294967295 639 (by norm_num)
     (by decide) (by decide)).1,
   (wave_phase_no_overflow (List.replicate 360 (0 : ℚ)) 4294967295 639 (by norm_num)
     (by decide) (by decide)).2.1⟩

end WaveArithClaims

/-! ## Claims on the cube geometry -/

section CubeGeometryClaims

variable {α : Type} [LinearOrderedField α] [FloorRing α]

/-- C13: at `time_ms = 0`, with `cosf 0 = 1` and `sinf 0 = 0`, the rotation is the
identity and every vertex `(x, y, z)` of the table projects to
`(x/(z+200)*300 + 320, y/(z+200)*300 + 240)`; the vertex `(-50, -50, -50)` (index
0) projects to `(220, 140)` and the first line drawn, edge `0-1`, runs from
`(220, 140)` to `(420, 140)`. -/
theorem cube_projection_time_zero (cosf sinf : α → α) (rend : Renderer)
    (hcos : cosf 0 = 1) (hsin : sinf 0 = 0) :
    (∀ p ∈ (vertices : List (α × α × α)),
      rotX p.1 p.2.2 (cosf (((0 : Nat) : α) / 1000)) (sinf (((0 : Nat) : α) / 1000)) = p.1 ∧
      rotZ p.1 p.2.2 (cosf (((0 : Nat) : α) / 1000)) (sinf (((0 : Nat) : α) / 1000)) = p.2.2 ∧
      ((project
          (rotX p.1 p.2.2 (cosf (((0 : Nat) : α) / 1000)) (sinf (((0 : Nat) : α) / 1000)))
          (rotZ p.1 p.2.2 (cosf (((0 : Nat) : α) / 1000)) (sinf (((0 : Nat) : α) / 1000)))
          (Int.tdiv WINDOW_WIDTH 2) : Int) : α) = p.1 / (p.2.2 + 200) * 300 + 320 ∧
      ((project p.2.1
          (rotZ p.1 p.2.2 (cosf (((0 : Nat) : α) / 1000)) (sinf (((0 : Nat) : α) / 1000)))
          (Int.tdiv WINDOW_HEIGHT 2) : Int) : α) = p.2.1 / (p.2.2 + 200) * 300 + 240) ∧
    readAt (vertices : List (α × α × α)) 0 = some (-50, -50, -50) ∧
    vertexScreen (cosf (((0 : Nat) : α) / 1000)) (sinf (((0 : Nat) : α) / 1000)) 0
      = some (220, 140) ∧
    ∃ out rest, Draw3DCube cosf sinf rend 0 = some out ∧
      out.cmds = rend.cmds ++ DrawCmd.line 220 140 420 140 ⟨255, 255, 255, 255⟩ :: rest ∧
      rest.length = 11 := by
  have hang : (((0 : Nat) : α) / 1000) = 0 := by simp
  have hw : Int.tdiv WINDOW_WIDTH 2 = 320 := by decide
  have hh : Int.tdiv WINDOW_HEIGHT 2 = 240 := by decide
  have hrx : ∀ x z : α, rotX x z 1 0 = x := fun x z => by unfold rotX; ring
  have hrz : ∀ x z : α, rotZ x z 1 0 = z := fun x z => by unfold rotZ; ring
  rw [hang, hcos, hsin]
  have hv0 : vertexScreen (1 : α) 0 0 = some (220, 140) := by
    have h1 : project (rotX (-50 : α) (-50) 1 0) (rotZ (-50 : α) (-50) 1 0) 320 = 220 := by
      rw [hrx, hrz]; exact project_intCast _ _ _ _ (by norm_num)
    have h2 : project (-50 : α) (rotZ (-50 : α) (-50) 1 0) 240 = 140 := by
      rw [hrz]; exact project_intCast _ _ _ _ (by norm_num)
    show some (project (rotX (-50 : α) (-50) 1 0) (rotZ (-50 : α) (-50) 1 0)
      (Int.tdiv WINDOW_WIDTH 2), project (-50 : α) (rotZ (-50 : α) (-50) 1 0)
      (Int.tdiv WINDOW_HEIGHT 2)) = some (220, 140)
    rw [hw, hh, h1, h2]
  have hv1 : vertexScreen (1 : α) 0 1 = some (420, 140) := by
    have h1 : project (rotX (50 : α) (-50) 1 0) (rotZ (50 : α) (-50) 1 0) 320 = 420 := by
      rw [hrx, hrz]; exact project_intCast _ _ _ _ (by norm_num)
    have h2 : project (-50 : α) (rotZ (50 : α) (-50) 1 0) 240 = 140 := by
      rw [hrz]; exact project_intCast _ _ _ _ (by norm_num)
    show some (project (rotX (50 : α) (-50) 1 0) (rotZ (50 : α) (-50) 1 0)
      (Int.tdiv WINDOW_WIDTH 2), project (-50 : α) (rotZ (50 : α) (-50) 1 0)
      (Int.tdiv WINDOW_HEIGHT 2)) = some (420, 140)
    rw [hw, hh, h1, h2]
  refine ⟨?_, rfl, hv0, ?_⟩
  · intro p hp
    obtain ⟨nx, ny, hx, hy⟩ := vertices_project_int p hp
    refine ⟨hrx _ _, hrz _ _, ?_, ?_⟩
    · rw [hrx, hrz, hw, project_intCast _ _ _ nx hx, ← hx]
      norm_num
    · rw [hrz, hh, project_intCast _ _ _ ny hy, ← hy]
      norm_num
  · obtain ⟨⟨out, ho, hc⟩, _⟩ := Draw3DCube_cmds cosf sinf rend 0
    rw [hang, hcos, hsin] at hc
    have hline : cubeLine (1 : α) 0 (0, 1)
        = [DrawCmd.line 220 140 420 140 ⟨255, 255, 255, 255⟩] := by
      unfold cubeLine
      rw [hv0, hv1]
    have hsplit : edges.flatMap (cubeLine (1 : α) 0)
        = cubeLine (1 : α) 0 (0, 1) ++ edges.tail.flatMap (cubeLine (1 : α) 0) := rfl
    refine ⟨out, edges.tail.flatMap (cubeLine (1 : α) 0), ho, ?_, rfl⟩
    rw [hc, hsplit, hline]
    rfl

/-- Witness of C13 over the rationals: `cosf a = 1 - a * a / 2` and `sinf a = a`,
which are 1 and 0 at 0. -/
theorem cube_projection_time_zero_witness :
    ((fun a : ℚ => 1 - a * a / 2) 0 = 1) ∧ ((fun a : ℚ => a) 0 = 0) ∧
    (vertexScreen ((fun a : ℚ => 1 - a * a / 2) (((0 : Nat) : ℚ) / 1000))
        ((fun a : ℚ => a) (((0 : Nat) : ℚ) / 1000)) 0 = some (220, 140)) ∧
    ∃ out rest, Draw3DCube (fun a : ℚ => 1 - a * a / 2) (fun a : ℚ => a) ⟨⟨0, 0, 0, 0⟩, []⟩ 0
        = some out ∧
      out.cmds = (⟨⟨0, 0, 0, 0⟩, []⟩ : Renderer).cmds
        ++ DrawCmd.line 220 140 420 140 ⟨255, 255, 255, 255⟩ :: rest ∧
      rest.length = 11 :=
  ⟨by norm_num, rfl,
   (cube_projection_time_zero (fun a : ℚ => 1 - a * a / 2) (fun a : ℚ => a) ⟨⟨0, 0, 0, 0⟩, []⟩
     (by norm_num) rfl).2.2.1,
   (cube_projection_time_zero (fun a : ℚ => 1 - a * a / 2) (fun a : ℚ => a) ⟨⟨0, 0, 0, 0⟩, []⟩
     (by norm_num) rfl).2.2.2⟩

/-- C20: the edge table describes the 12 edges of the cube: every index in it
lies in `[0, 8)`, the 12 unordered pairs are pairwise distinct, each pair joins
two vertices of the vertex table that differ in exactly one coordinate, by 100,
and every vertex index `0 .. 7` is an endpoint of exactly 3 edges. -/
theorem edges_describe_cube {F : Type} [LinearOrderedField F] :
    edges.length = 12 ∧ (vertices : List (F × F × F)).length = 8 ∧
    (∀ e ∈ edges, 0 ≤ e.1 ∧ e.1 < 8 ∧ 0 ≤ e.2 ∧ e.2 < 8) ∧
    (edges.map edgeEnds).Nodup ∧
    (∀ e ∈ edges, ∃ p q : F × F × F,
      readAt vertices e.1 = some p ∧ readAt vertices e.2 = some q ∧
      (((p.1 - q.1 = 100 ∨ q.1 - p.1 = 100) ∧ p.2.1 = q.2.1 ∧ p.2.2 = q.2.2) ∨
       (p.1 = q.1 ∧ (p.2.1 - q.2.1 = 100 ∨ q.2.1 - p.2.1 = 100) ∧ p.2.2 = q.2.2) ∨
       (p.1 = q.1 ∧ p.2.1 = q.2.1 ∧ (p.2.2 - q.2.2 = 100 ∨ q.2.2 - p.2.2 = 100)))) ∧
    (∀ v ∈ intRange 0 ((NUM_VERTICES : Int) - 1), edgeCount v = 3) := by
  refine ⟨rfl, rfl, by decide, by decide, ?_, by decide⟩
  intro e he
  simp only [edges, List.mem_cons, List.mem_singleton, List.not_mem_nil, or_false] at he
  rcases he with h | h | h | h | h | h | h | h | h | h | h | h <;> subst h
  · exact ⟨(-50, -50, -50), (50, -50, -50), rfl, rfl, by norm_num⟩
  · exact ⟨(50, -50, -50), (50, 50, -50), rfl, rfl, by norm_num⟩
  · exact ⟨(50, 50, -50), (-50, 50, -50), rfl, rfl, by norm_num⟩
  · exact ⟨(-50, 50, -50), (-50, -50, -50), rfl, rfl, by norm_num⟩
  · exact ⟨(-50, -50, 50), (50, -50, 50), rfl, rfl, by norm_num⟩
  · exact ⟨(50, -50, 50), (50, 50, 50), rfl, rfl, by norm_num⟩
  · exact ⟨(50, 50, 50), (-50, 50, 50), rfl, rfl, by norm_num⟩
  · exact ⟨(-50, 50, 50), (-50, -50, 50), rfl, rfl, by norm_num⟩
  · exact ⟨(-50, -50, -50), (-50, -50, 50), rfl, rfl, by norm_num⟩
  · exact ⟨(50, -50, -50), (50, -50, 50), rfl, rfl, by norm_num⟩
  · exact ⟨(50, 50, -50), (50, 50, 50), rfl, rfl, by norm_num⟩
  · exact ⟨(-50, 50, -50), (-50, 50, 50), rfl, rfl, by norm_num⟩

end CubeGeometryClaims

/-! ## Claims on the frame sequence -/

section FrameSequenceClaims

variable {α : Type} [LinearOrderedField α] [FloorRing α]

/-- C16: in every iteration of `loop`, with the 360-entry table and the pool of
200 stars, the renderer at position `i` that is not null receives, in this
order, one clear to `(0, 0, 0, 255)`, the 200 rectangles of the stars as they
are after the `UpdateStars dt` of its turn, the 1920 wave points, the 12 cube
lines and one present. A null renderer stays null and causes no star update:
the pool `loop` leaves is the one after one `UpdateStars dt` per renderer that
is not null. -/
theorem loop_frame_sequence (cosf sinf : α → α) (s : Globals α) (now : Nat)
    (renderers : List (Option Renderer)) (i : Nat)
    (hlen : s.sineTable.length = 360) (hstars : s.stars.length = 200) :
    ∃ out, loop cosf sinf s now renderers = some out ∧
      out.2.length = renderers.length ∧ out.1.last_ticks = now ∧
      (out.1.stars, out.1.rng) = runUpdates (s.stars, s.rng)
        (List.replicate (renderers.countP Option.isSome) (loopDt s.last_ticks now)) ∧
      (renderers[i]? = some none → out.2[i]? = some none) ∧
      (∀ rend, renderers[i]? = some (some rend) →
        ∃ (r1 : Renderer) (stars1 : List (Star α)) (wave cube : List DrawCmd),
          stars1 = (runUpdates (s.stars, s.rng)
            (List.replicate ((renderers.take i).countP Option.isSome + 1)
              (loopDt s.last_ticks now))).1 ∧
          (stars1.map starRect).length = 200 ∧
          wave = (List.range 640).flatMap
            (fun k : Nat => waveColumn s.sineTable now (k : Int)) ∧
          wave.length = 1920 ∧
          cube = edges.flatMap
            (cubeLine (cosf ((now : α) / 1000)) (sinf ((now : α) / 1000))) ∧
          cube.length = 12 ∧
          out.2[i]? = some (some r1) ∧
          r1.cmds = rend.cmds ++ ([DrawCmd.clear ⟨0, 0, 0, 255⟩] ++ stars1.map starRect ++
            wave ++ cube ++ [DrawCmd.present])) := by
  obtain ⟨out, ho, hl, hst, _, htk, hall⟩ := loopWindows_frames cosf sinf
    (loopDt s.last_ticks now) now { s with last_ticks := now } renderers hlen
  refine ⟨out, ho, hl, htk, hst, (hall i).1, fun rend hr => ?_⟩
  obtain ⟨r1, hr1, hc1⟩ := (hall i).2 rend hr
  refine ⟨r1, _, _, _, rfl, ?_, rfl,
    (DrawSineWave_cmds rend s.sineTable now hlen).2, rfl,
    (Draw3DCube_cmds cosf sinf rend now).2, hr1, hc1⟩
  rw [List.length_map]
  exact (runUpdates_length _ _).trans hstars

/-- Witness of C16 over the rationals: a first iteration at tick 5 with the
table of 360 zeros, 200 stars at depth 100 and the renderers `[null, r]`, read
at position 1. -/
theorem loop_frame_sequence_witness :
    ((⟨List.replicate 360 0, List.replicate 200 ⟨0, 0, 100, 1, 2, 3⟩, fun _ => 0, 0⟩ :
      Globals ℚ).sineTable.length = 360) ∧
    ((⟨List.replicate 360 0, List.replicate 200 ⟨0, 0, 100, 1, 2, 3⟩, fun _ => 0, 0⟩ :
      Globals ℚ).stars.length = 200) ∧
    ∃ out, loop (fun _ => 1) (fun _ => 0)
        (⟨List.replicate 360 0, List.replicate 200 ⟨0, 0, 100, 1, 2, 3⟩, fun _ => 0, 0⟩ :
          Globals ℚ) 5 [none, some ⟨⟨0, 0, 0, 0⟩, []⟩] = some out ∧
      out.2.length = [none, some (⟨⟨0, 0, 0, 0⟩, []⟩ : Renderer)].length ∧
      out.1.last_ticks = 5 ∧
      ∃ (r1 : Renderer) (stars1 : List (Star ℚ)) (wave cube : List DrawCmd),
        (stars1.map starRect).length = 200 ∧ wave.length = 1920 ∧ cube.length = 12 ∧
        out.2[1]? = some (some r1) ∧
        r1.cmds = (⟨⟨0, 0, 0, 0⟩, []⟩ : Renderer).cmds ++
          ([DrawCmd.clear ⟨0, 0, 0, 255⟩] ++ stars1.map starRect ++ wave ++ cube ++
            [DrawCmd.present]) :=
  ⟨List.length_replicate _ _, List.length_replicate _ _,
   (loop_frame_sequence (fun _ => 1) (fun _ => 0)
     (⟨List.replicate 360 0, List.replicate 200 ⟨0, 0, 100, 1, 2, 3⟩, fun _ => 0, 0⟩ :
       Globals ℚ) 5 [none, some ⟨⟨0, 0, 0, 0⟩, []⟩] 1
     (List.length_replicate _ _) (List.length_replicate _ _)).imp
     (fun _ h => ⟨h.1, h.2.1, h.2.2.1,
       (h.2.2.2.2.2 ⟨⟨0, 0, 0, 0⟩, []⟩ rfl).imp fun _ h1 =>
         h1.imp fun _ h2 => h2.imp fun _ h3 => h3.imp fun _ h4 =>
           ⟨h4.2.1, h4.2.2.2.1, h4.2.2.2.2.2.1, h4.2.2.2.2.2.2.1, h4.2.2.2.2.2.2.2⟩⟩)⟩

end FrameSequenceClaims

end RetroNova
